import Mathlib

/-!
# ProDocEditor (src/script.js): history manager and insertion commands

A shallow embedding of the parts of `class ProDocEditor` that the properties
below are about.  The editor object is a record of the fields the methods read
and write; DOM facilities that the script only calls (the native command
facility, toasts) are recorded as logs in that record or taken as parameters.
-/

namespace ProDoc

/-! ## Data model -/

/-- One call of `showToast(message, type)`; `type` defaults to `success`. -/
structure Toast where
  message : String
  type : String
  deriving DecidableEq, Repr

/-- A DOM range: boundary points as (node, offset) pairs; nodes are numbered,
the editor element is node `0`. -/
structure Range where
  startContainer : Nat
  startOffset : Nat
  endContainer : Nat
  endOffset : Nat
  deriving DecidableEq, Repr

/-- The fields of `ProDocEditor` (constructor, lines 18-25) together with the
DOM state its methods act on: the content of the editor element, the live
selection, and logs of the toasts shown and of the native commands executed
(`document.execCommand(name, false, value)`). -/
structure Editor where
  innerHTML : String
  history : List String
  historyIndex : Int
  isDirty : Bool
  savedRange : Option Range
  selection : List Range
  focused : Bool
  toasts : List Toast
  commands : List (String × String)
  deriving DecidableEq, Repr

/-- The state the constructor sets up: `history = []`, `historyIndex = -1`,
`isDirty = false`, `savedRange = null`. -/
def Editor.initial (content : String) : Editor :=
  { innerHTML := content, history := [], historyIndex := -1, isDirty := false,
    savedRange := none, selection := [], focused := false, toasts := [], commands := [] }

/-! ## JavaScript array primitives used by the history code -/

/-- The read `arr[i]` for an integer `i`: `undefined` (here `none`) when `i`
is negative or not below `arr.length`. -/
def jsIndex (arr : List String) (i : Int) : Option String :=
  if 0 ≤ i then arr[i.toNat]? else none

/-- The call `arr.slice(0, stop)`: a negative `stop` counts from the end of the
array, and the result is clamped to the array. -/
def jsSliceFromZero (arr : List String) (stop : Int) : List String :=
  if stop < 0 then arr.take ((arr.length : Int) + stop).toNat else arr.take stop.toNat

/-- The conversion of an array read to the string that an assignment to
`innerHTML` stores: `undefined` becomes the text `undefined`. -/
def jsToString : Option String → String
  | some s => s
  | none => "undefined"

/-! ## History (lines 585-621) -/

/-- The method `showToast(message, type)`, recorded in the toast log. -/
def showToast (message : String) (type : String) (st : Editor) : Editor :=
  { st with toasts := st.toasts ++ [⟨message, type⟩] }

/-- The method `saveToHistory(content)`, lines 585-596. -/
def saveToHistory (content : String) (st : Editor) : Editor :=
  if jsIndex st.history st.historyIndex = some content then st
  else
    let h1 :=
      if st.historyIndex < (st.history.length : Int) - 1 then
        jsSliceFromZero st.history (st.historyIndex + 1)
      else st.history
    let h2 := h1 ++ [content]
    let i2 := st.historyIndex + 1
    if h2.length > 50 then { st with history := h2.tail, historyIndex := i2 - 1 }
    else { st with history := h2, historyIndex := i2 }

/-- The method `updateAfterHistory()`, lines 616-621: the statistics, outline
and toolbar refreshes only repaint derived views; the state change is the dirty
flag. -/
def updateAfterHistory (st : Editor) : Editor :=
  { st with isDirty := true }

/-- The method `undo()`, lines 598-605. -/
def undo (st : Editor) : Editor :=
  if st.historyIndex > 0 then
    let i := st.historyIndex - 1
    showToast "已撤销" "success"
      (updateAfterHistory { st with historyIndex := i, innerHTML := jsToString (jsIndex st.history i) })
  else st

/-- The method `redo()`, lines 607-614. -/
def redo (st : Editor) : Editor :=
  if st.historyIndex < (st.history.length : Int) - 1 then
    let i := st.historyIndex + 1
    showToast "已重做" "success"
      (updateAfterHistory { st with historyIndex := i, innerHTML := jsToString (jsIndex st.history i) })
  else st

/-- A call of one of the three history methods. -/
inductive HistoryOp where
  | save (content : String)
  | undo
  | redo
  deriving DecidableEq, Repr

/-- Performs one history call. -/
def HistoryOp.apply : HistoryOp → Editor → Editor
  | .save c, st => saveToHistory c st
  | .undo, st => ProDoc.undo st
  | .redo, st => ProDoc.redo st

/-- Performs a sequence of history calls, first call first. -/
def runOps (ops : List HistoryOp) (st : Editor) : Editor :=
  ops.foldl (fun s op => op.apply s) st

/-- Records the snapshots of a list in order, first snapshot first. -/
def recordAll (snaps : List String) (st : Editor) : Editor :=
  snaps.foldl (fun s c => saveToHistory c s) st

/-- The history invariants of the data model: at most 50 entries and the
cursor on an entry. -/
def WellFormed (st : Editor) : Prop :=
  st.history.length ≤ 50 ∧ 0 ≤ st.historyIndex ∧ st.historyIndex < (st.history.length : Int)

instance (st : Editor) : Decidable (WellFormed st) := by
  unfold WellFormed; infer_instance

/-- The states the history can be in: the constructor state (no entry, cursor
`-1`) or a well-formed state. -/
def Consistent (st : Editor) : Prop :=
  (st.history = [] ∧ st.historyIndex = -1) ∨ WellFormed st

instance (st : Editor) : Decidable (Consistent st) := by
  unfold Consistent; infer_instance

/-- Sixty pairwise distinct snapshots `<p>0</p>`, ..., `<p>59</p>`. -/
def sampleSnapshots : List String :=
  (List.range 60).map (fun i => "<p>" ++ toString i ++ "</p>")

/-! ## Selection and the native command facility -/

/-- The browser facilities the insertion commands call.  `childCount content`
is the number of child nodes of the editor element; `insertHTML html sel content`
is the outcome of `document.execCommand(insertHTML, false, html)`: the new
content and selection; `inAnchor sel content` tells whether
`selection.focusNode?.parentElement.closest(a)` finds an anchor, and
`editAnchor url text newTab sel content` is the content after lines 409-415
have rewritten that anchor in place. -/
structure Host where
  childCount : String → Nat
  insertHTML : String → List Range → String → String × List Range
  inAnchor : List Range → String → Bool
  editAnchor : String → String → Bool → List Range → String → String

/-- The call `range.selectNodeContents(node)` for a node with `len` children:
the range runs from `(node, 0)` to `(node, len)`. -/
def Range.selectNodeContents (node len : Nat) : Range :=
  ⟨node, 0, node, len⟩

/-- The call `range.collapse(toStart)`: both boundary points become the start
(`toStart = true`) or the end (`toStart = false`). -/
def Range.collapse (toStart : Bool) (r : Range) : Range :=
  if toStart then ⟨r.startContainer, r.startOffset, r.startContainer, r.startOffset⟩
  else ⟨r.endContainer, r.endOffset, r.endContainer, r.endOffset⟩

/-- The attribute `range.collapsed`. -/
def Range.collapsed (r : Range) : Bool :=
  r.startContainer = r.endContainer && r.startOffset = r.endOffset

/-- The method `saveSelection()`, lines 52-59: the first range of the live
selection is stored, or `null` when the selection has no range. -/
def saveSelection (st : Editor) : Editor :=
  match st.selection with
  | r :: _ => { st with savedRange := some r }
  | [] => { st with savedRange := none }

/-- The method `restoreSelection()`, lines 61-76. -/
def restoreSelection (host : Host) (st : Editor) : Editor :=
  match st.savedRange with
  | some r => { st with focused := true, selection := [r] }
  | none =>
    let range := Range.collapse false (Range.selectNodeContents 0 (host.childCount st.innerHTML))
    { st with focused := true, selection := [range] }

/-- The call `document.execCommand(insertHTML, false, html)`: the host splices
the fragment at the live selection; the call is appended to the command log. -/
def execInsertHTML (host : Host) (html : String) (st : Editor) : Editor :=
  { st with innerHTML := (host.insertHTML html st.selection st.innerHTML).1,
            selection := (host.insertHTML html st.selection st.innerHTML).2,
            commands := st.commands ++ [("insertHTML", html)] }

/-! ## Regular expressions of the script -/

/-- The regular-expression constructs used by the pattern at line 399. -/
inductive Re where
  | eps
  | chr (c : Char)
  | seq (a b : Re)
  | alt (a b : Re)
  | opt (a : Re)
  deriving Repr

/-- The character comparison of a pattern with flag `i`: both characters are
upper-cased.  The patterns of the script are ASCII, and a character outside
ASCII never canonicalizes to an ASCII one, so ASCII upper-casing decides the
comparison. -/
def canonicalize (ignoreCase : Bool) (c : Char) : Char :=
  if ignoreCase then c.toUpper else c

/-- All ways for the pattern to match at the start of the input, in
backtracking order: the list of remaining inputs. -/
def Re.matchAt (ignoreCase : Bool) : Re → List Char → List (List Char)
  | .eps, s => [s]
  | .chr _, [] => []
  | .chr p, c :: cs => if canonicalize ignoreCase c = canonicalize ignoreCase p then [cs] else []
  | .seq a b, s => (a.matchAt ignoreCase s).flatMap (b.matchAt ignoreCase)
  | .alt a b, s => a.matchAt ignoreCase s ++ b.matchAt ignoreCase s
  | .opt a, s => a.matchAt ignoreCase s ++ [s]

/-- A literal word as a pattern. -/
def Re.lit (w : List Char) : Re :=
  w.foldr (fun c r => Re.seq (Re.chr c) r) Re.eps

/-- The result of `s.match(re)` being non-null for a pattern anchored with `^`. -/
def Re.matchesStart (re : Re) (ignoreCase : Bool) (s : String) : Bool :=
  !(re.matchAt ignoreCase s.data).isEmpty

/-- The pattern `/^(https?|ftp):\/\//i` of line 399, without its anchor and flag. -/
def linkUrlPattern : Re :=
  .seq (.alt (.seq (Re.lit "http".data) (.opt (.chr 's'))) (Re.lit "ftp".data))
    (Re.lit "://".data)

/-! ## Link insertion (lines 396-425) -/

/-- The condition of the `if` at line 399: `!url || !url.match(pattern)`. -/
def linkUrlRejected (url : String) : Bool :=
  decide (url = "") || !(linkUrlPattern.matchesStart true url)

/-- The template literal of line 418. -/
def linkMarkup (url text : String) (newTab : Bool) : String :=
  "<a href=\"" ++ url ++ "\" " ++ (if newTab then "target=\"_blank\"" else "") ++ ">"
    ++ text ++ "</a>"

/-- The method `confirmLink()`, lines 396-425; `url`, `text` and `newTab` are
the values of the three fields of the link dialog. -/
def confirmLink (host : Host) (url text : String) (newTab : Bool) (st : Editor) : Editor :=
  let st1 := restoreSelection host st
  if linkUrlRejected url then showToast "请输入有效的链接地址" "warning" st1
  else
    let text1 := if text = "" then url else text
    let st2 :=
      if host.inAnchor st1.selection st1.innerHTML then
        { st1 with innerHTML := host.editAnchor url text1 newTab st1.selection st1.innerHTML }
      else execInsertHTML host (linkMarkup url text1 newTab) st1
    let st3 := showToast "链接已更新" "success" st2
    saveToHistory st3.innerHTML st3

/-- A string begins with a scheme when the comparison ignores case: the
upper-cased first characters of the string are the upper-cased scheme. -/
def beginsWithIgnoringCase (scheme s : String) : Prop :=
  (s.data.take scheme.data.length).map Char.toUpper = scheme.data.map Char.toUpper

instance (scheme s : String) : Decidable (beginsWithIgnoringCase scheme s) := by
  unfold beginsWithIgnoringCase; infer_instance

/-! ## A reader for the markup the script emits -/

/-- A token of markup: a start tag with its attributes in source order, an end
tag, or a run of text. -/
inductive Token where
  | startTag (name : String) (attrs : List (String × String))
  | endTag (name : String)
  | text (data : String)
  deriving DecidableEq, Repr

/-- The states of the HTML tokenizer that tags with attributes go through.
Accumulated characters and attributes are kept newest first. -/
inductive Scan where
  | data (acc : List Char)
  | tagOpen
  | tagName (name : List Char)
  | endTagName (name : List Char)
  | beforeAttr (name : List Char) (attrs : List (String × String))
  | attrName (name : List Char) (attrs : List (String × String)) (an : List Char)
  | afterAttrName (name : List Char) (attrs : List (String × String)) (an : List Char)
  | beforeValue (name : List Char) (attrs : List (String × String)) (an : List Char)
  | valueDq (name : List Char) (attrs : List (String × String)) (an : List Char) (v : List Char)
  | valueSq (name : List Char) (attrs : List (String × String)) (an : List Char) (v : List Char)
  | valueUq (name : List Char) (attrs : List (String × String)) (an : List Char) (v : List Char)
  | afterValue (name : List Char) (attrs : List (String × String))
  deriving DecidableEq, Repr

/-- The characters HTML counts as white space inside a tag. -/
def isTagSpace (c : Char) : Bool :=
  c = ' ' || c = '\t' || c = '\n' || c = '\x0c' || c = '\r'

/-- The text token for the characters accumulated in the data state, if any. -/
def flushText (acc : List Char) : List Token :=
  if acc = [] then [] else [Token.text (String.mk acc.reverse)]

/-- The start tag token for an accumulated name and attribute list. -/
def mkStartTag (name : List Char) (attrs : List (String × String)) : Token :=
  Token.startTag (String.mk name.reverse) attrs.reverse

/-- Adds the attribute with accumulated name `an` and value `v`. -/
def pushAttr (attrs : List (String × String)) (an v : List Char) : List (String × String) :=
  (String.mk an.reverse, String.mk v.reverse) :: attrs

/-- One step of the tokenizer on the character `c`: the tokens emitted and the
next state, or `none` where the input leaves the part of HTML that is read
here: every ampersand in text or in an attribute value (whether or not it
starts a character reference), self-closing tags, markup declarations, white
space inside an end tag, an equals sign where an attribute name is due.  The
reader is partial: it gives no tokens for such input, it does not give wrong
ones. -/
def Scan.step : Scan → Char → Option (List Token × Scan)
  | .data acc, c =>
    if c = '<' then some (flushText acc, .tagOpen)
    else if c = '&' then none
    else some ([], .data (c :: acc))
  | .tagOpen, c =>
    if c = '/' then some ([], .endTagName [])
    else if c.isAlpha then some ([], .tagName [c.toLower])
    else none
  | .tagName name, c =>
    if isTagSpace c then some ([], .beforeAttr name [])
    else if c = '>' then some ([mkStartTag name []], .data [])
    else if c = '/' then none
    else some ([], .tagName (c.toLower :: name))
  | .endTagName name, c =>
    if c = '>' then some ([Token.endTag (String.mk name.reverse)], .data [])
    else if isTagSpace c || c = '/' then none
    else some ([], .endTagName (c.toLower :: name))
  | .beforeAttr name attrs, c =>
    if isTagSpace c then some ([], .beforeAttr name attrs)
    else if c = '>' then some ([mkStartTag name attrs], .data [])
    else if c = '/' || c = '=' then none
    else some ([], .attrName name attrs [c.toLower])
  | .attrName name attrs an, c =>
    if isTagSpace c then some ([], .afterAttrName name attrs an)
    else if c = '=' then some ([], .beforeValue name attrs an)
    else if c = '>' then some ([mkStartTag name (pushAttr attrs an [])], .data [])
    else if c = '/' then none
    else some ([], .attrName name attrs (c.toLower :: an))
  | .afterAttrName name attrs an, c =>
    if isTagSpace c then some ([], .afterAttrName name attrs an)
    else if c = '=' then some ([], .beforeValue name attrs an)
    else if c = '>' then some ([mkStartTag name (pushAttr attrs an [])], .data [])
    else if c = '/' then none
    else some ([], .attrName name (pushAttr attrs an []) [c.toLower])
  | .beforeValue name attrs an, c =>
    if isTagSpace c then some ([], .beforeValue name attrs an)
    else if c = '"' then some ([], .valueDq name attrs an [])
    else if c = '\'' then some ([], .valueSq name attrs an [])
    else if c = '>' then some ([mkStartTag name (pushAttr attrs an [])], .data [])
    else if c = '&' then none
    else some ([], .valueUq name attrs an [c])
  | .valueDq name attrs an v, c =>
    if c = '"' then some ([], .afterValue name (pushAttr attrs an v))
    else if c = '&' then none
    else some ([], .valueDq name attrs an (c :: v))
  | .valueSq name attrs an v, c =>
    if c = '\'' then some ([], .afterValue name (pushAttr attrs an v))
    else if c = '&' then none
    else some ([], .valueSq name attrs an (c :: v))
  | .valueUq name attrs an v, c =>
    if isTagSpace c then some ([], .beforeAttr name (pushAttr attrs an v))
    else if c = '>' then some ([mkStartTag name (pushAttr attrs an v)], .data [])
    else if c = '&' then none
    else some ([], .valueUq name attrs an (c :: v))
  | .afterValue name attrs, c =>
    if isTagSpace c then some ([], .beforeAttr name attrs)
    else if c = '>' then some ([mkStartTag name attrs], .data [])
    else if c = '/' || c = '=' then none
    else some ([], .attrName name attrs [c.toLower])

/-- Runs the tokenizer from a state over the input; `out` holds the tokens
emitted so far, newest first.  The input has to end outside a tag. -/
def Scan.run : Scan → List Token → List Char → Option (List Token)
  | .data acc, out, [] => some ((flushText acc ++ out).reverse)
  | _, _, [] => none
  | st, out, c :: cs =>
    match st.step c with
    | none => none
    | some (toks, st1) => st1.run (toks.reverse ++ out) cs

/-- The tokens of a piece of markup. -/
def tokens (html : String) : Option (List Token) :=
  (Scan.data []).run [] html.data

/-- Reads a fragment that consists of one anchor element with a text body:
its attributes and its body. -/
def readAnchor (fragment : String) : Option (List (String × String) × String) :=
  match tokens fragment with
  | some [.startTag name attrs, .text body, .endTag name1] =>
    if name = "a" ∧ name1 = "a" then some (attrs, body) else none
  | _ => none

/-- The fragment is an anchor element whose `href` attribute value is `url`,
whose body is `body`, and which has the attribute `target="_blank"` exactly
when `newTab` holds. -/
def IsLinkAnchor (fragment url body : String) (newTab : Bool) : Prop :=
  match readAnchor fragment with
  | some (attrs, b) =>
    attrs.lookup "href" = some url ∧ b = body ∧
      (attrs.lookup "target" = some "_blank" ↔ newTab = true)
  | none => False

instance (fragment url body : String) (newTab : Bool) :
    Decidable (IsLinkAnchor fragment url body newTab) := by
  unfold IsLinkAnchor; split <;> infer_instance

/-- A host that is never inside an anchor and splices a fragment by appending
it to the content. -/
def appendingHost : Host :=
  { childCount := fun _ => 1
    insertHTML := fun html sel content => (content ++ html, sel)
    inAnchor := fun _ _ => false
    editAnchor := fun _ _ _ _ content => content }

/-! ## Table insertion (lines 554-571) -/

/-- The template literal of line 563 for a cell of row `i`, with `cellType`
and `style` as computed at lines 560-562. -/
def cellMarkup (i : Nat) : String :=
  let cellType := if i = 0 then "th" else "td"
  let style := "border: 1px solid #dee2e6; padding: 8px; min-width: 50px;" ++
    (if i = 0 then "background-color: #f8f9fa; font-weight: 600; text-align: center;" else "")
  "<" ++ cellType ++ " style=\"" ++ style ++ "\"><p><br></p></" ++ cellType ++ ">"

/-- The string `tableHTML` built by lines 556-567: the two nested loops append
to one accumulator. -/
def tableMarkup (rows cols : Nat) : String :=
  let start := "<table style=\"width: 100%; border-collapse: collapse;\"><tbody>"
  let body := (List.range rows).foldl (fun html i =>
    (List.range cols).foldl (fun html _ => html ++ cellMarkup i) (html ++ "<tr>") ++ "</tr>")
    start
  body ++ "</tbody></table><p><br></p>"

/-- The method `insertTable(rows, cols)`, lines 554-571. -/
def insertTable (host : Host) (rows cols : Nat) (st : Editor) : Editor :=
  let st1 := restoreSelection host st
  let st2 := execInsertHTML host (tableMarkup rows cols) st1
  let st3 := showToast "表格已插入" "success" st2
  saveToHistory st3.innerHTML st3

/-- The elements with one of the given names in a token list, each with the
tokens between its start tag and the next end tag of the same name.  The
second argument is the element being read, if any, with its tokens newest
first. -/
def elementsOf (names : List String) :
    Option (String × List Token) → List Token → List (String × List Token)
  | _, [] => []
  | none, .startTag n _ :: ts =>
    if n ∈ names then elementsOf names (some (n, [])) ts else elementsOf names none ts
  | none, _ :: ts => elementsOf names none ts
  | some (n, acc), tok :: ts =>
    if tok = Token.endTag n then (n, acc.reverse) :: elementsOf names none ts
    else elementsOf names (some (n, tok :: acc)) ts

/-- The rows of a table: for each `tr` element its cells, each cell given by
its tag name (`th` or `td`) and the tokens of its content. -/
def readTable (html : String) : Option (List (List (String × List Token))) :=
  (tokens html).map (fun toks =>
    (elementsOf ["tr"] none toks).map (fun row => elementsOf ["th", "td"] none row.2))

/-- The tokens of the empty editable line `<p><br></p>`. -/
def emptyLine : List Token :=
  [Token.startTag "p" [], Token.startTag "br" [], Token.endTag "p"]

/-- The tokenizer reads the segment `seg`, met between two tags, as the tokens
`toks` and is between two tags again afterwards. -/
def ScanOK (seg : List Char) (toks : List Token) : Prop :=
  ∀ (out : List Token) (rest : List Char),
    (Scan.data []).run out (seg ++ rest) = (Scan.data []).run (toks.reverse ++ out) rest

/-- The reader of elements, when outside an element, reads the tokens `seg` as
the elements `elems` and is outside an element again afterwards. -/
def ReadOK (names : List String) (seg : List Token) (elems : List (String × List Token)) : Prop :=
  ∀ rest : List Token,
    elementsOf names none (seg ++ rest) = elems ++ elementsOf names none rest

/-! ## JavaScript string primitives -/

/-- The call `s.startsWith(p)`, on character lists. -/
def jsStartsWith : List Char → List Char → Bool
  | [], _ => true
  | _ :: _, [] => false
  | p :: ps, c :: cs => p == c && jsStartsWith ps cs

/-- The call `s.includes(p)`, on character lists. -/
def jsIncludes (p : List Char) : List Char → Bool
  | [] => p.isEmpty
  | c :: cs => jsStartsWith p (c :: cs) || jsIncludes p cs

/-- The call `s.split(sep)` for a non-empty separator: `skip` counts the
characters of a separator just found that are still to be passed over, `acc`
holds the current piece, newest character first. -/
def jsSplitAux (sep : List Char) : Nat → List Char → List Char → List (List Char)
  | _, acc, [] => [acc.reverse]
  | skip + 1, acc, _ :: cs => jsSplitAux sep skip acc cs
  | 0, acc, c :: cs =>
    if jsStartsWith sep (c :: cs) then acc.reverse :: jsSplitAux sep (sep.length - 1) [] cs
    else jsSplitAux sep 0 (c :: acc) cs

/-- The call `s.split(sep)` for a non-empty separator. -/
def jsSplit (sep s : List Char) : List (List Char) :=
  jsSplitAux sep 0 [] s

/-- The white space and line terminators that `trim()` removes. -/
def jsIsWhiteSpace (c : Char) : Bool :=
  c = '\t' || c = '\n' || c = '\x0b' || c = '\x0c' || c = '\r' || c = ' ' ||
  c = '\u00a0' || c = '\u1680' || (0x2000 ≤ c.toNat && c.toNat ≤ 0x200a) ||
  c = '\u2028' || c = '\u2029' || c = '\u202f' || c = '\u205f' || c = '\u3000' ||
  c = '\ufeff'

/-- The call `s.trim()`, on character lists. -/
def jsTrimChars (s : List Char) : List Char :=
  ((s.dropWhile jsIsWhiteSpace).reverse.dropWhile jsIsWhiteSpace).reverse

/-- The call `s.trim()`. -/
def jsTrim (s : String) : String :=
  String.mk (jsTrimChars s.data)

/-! ## Regular expressions with classes, repetition and groups -/

/-- The character sets of the patterns: `[\s\S]`, `.`, a negated class such
as `[^>]`, `\s`, `[a-zA-Z0-9]`, and a single character. -/
inductive CharSet where
  | all
  | dot
  | notOf (cs : List Char)
  | space
  | alnum
  | one (c : Char)
  deriving DecidableEq, Repr

/-- Whether a character of the input belongs to the set, under the flag `i`
when `ignoreCase` holds. -/
def CharSet.has (ignoreCase : Bool) : CharSet → Char → Bool
  | .all, _ => true
  | .dot, c => !(c = '\n' || c = '\r' || c = '\u2028' || c = '\u2029')
  | .notOf cs, c => !((cs.map (canonicalize ignoreCase)).contains (canonicalize ignoreCase c))
  | .space, c => jsIsWhiteSpace c
  | .alnum, c =>
    (('a' ≤ c && c ≤ 'z') || ('A' ≤ c && c ≤ 'Z') || ('0' ≤ c && c ≤ '9'))
  | .one p, c => canonicalize ignoreCase c = canonicalize ignoreCase p

/-- The patterns: the empty pattern, one character of a set, sequence,
alternative (left first), repetition `*` (greedy) or `*?` (lazy), a numbered
capturing group, and the end of input `$`. -/
inductive Rx where
  | eps
  | set (s : CharSet)
  | seq (a b : Rx)
  | alt (a b : Rx)
  | star (greedy : Bool) (a : Rx)
  | group (n : Nat) (a : Rx)
  | eol
  deriving Repr

/-- The captures of a match: group number and captured text, latest first. -/
abbrev Caps := List (Nat × List Char)

/-- The outcome of a match attempt: the captures and the input left after the
match. -/
abbrev MatchResult := Option (Caps × List Char)

/-- The repetition of a pattern with matcher `step`, at most `fuel` times:
greedy repetition tries one more round before the continuation, lazy
repetition tries the continuation first; a round that consumes nothing is
rejected. -/
def starLoop (step : (Caps → List Char → MatchResult) → Caps → List Char → MatchResult)
    (greedy : Bool) : Nat → (Caps → List Char → MatchResult) → Caps → List Char → MatchResult
  | 0, k, caps, s => k caps s
  | fuel + 1, k, caps, s =>
    if greedy then
      (step (fun caps1 s1 =>
          if s1.length < s.length then starLoop step greedy fuel k caps1 s1 else none) caps s).orElse
        (fun _ => k caps s)
    else
      (k caps s).orElse (fun _ =>
        step (fun caps1 s1 =>
          if s1.length < s.length then starLoop step greedy fuel k caps1 s1 else none) caps s)

/-- The backtracking matcher: matches the pattern at the start of the input
and hands the captures and the rest of the input to the continuation `k`; the
first way that makes `k` succeed wins. -/
def Rx.run (ignoreCase : Bool) :
    Rx → (Caps → List Char → MatchResult) → Caps → List Char → MatchResult
  | .eps, k, caps, s => k caps s
  | .set _, _, _, [] => none
  | .set cs, k, caps, c :: rest => if cs.has ignoreCase c then k caps rest else none
  | .seq a b, k, caps, s => a.run ignoreCase (fun caps1 s1 => b.run ignoreCase k caps1 s1) caps s
  | .alt a b, k, caps, s => (a.run ignoreCase k caps s).orElse (fun _ => b.run ignoreCase k caps s)
  | .star g a, k, caps, s => starLoop (a.run ignoreCase) g (s.length + 1) k caps s
  | .group n a, k, caps, s =>
    a.run ignoreCase (fun caps1 s1 => k ((n, s.take (s.length - s1.length)) :: caps1) s1) caps s
  | .eol, k, caps, s => if s = [] then k caps s else none

/-- A literal word as a pattern. -/
def Rx.word (w : String) : Rx :=
  w.data.foldr (fun c r => Rx.seq (Rx.set (.one c)) r) Rx.eps

/-- The pattern `a+`. -/
def Rx.plus (a : Rx) : Rx :=
  .seq a (.star true a)

/-- The pattern `a?`. -/
def Rx.opt (a : Rx) : Rx :=
  .alt a .eps

/-- A match of the pattern at the start of the input: captures and the rest. -/
def Rx.matchHere (ignoreCase : Bool) (rx : Rx) (s : List Char) : MatchResult :=
  rx.run ignoreCase (fun caps rest => some (caps, rest)) [] s

/-- The text of a capture group of a match; a group that did not take part is
the empty text, as in a replacement pattern. -/
def capture (caps : Caps) (n : Nat) : List Char :=
  (caps.lookup n).getD []

/-- The leftmost match of a pattern without the flag `g`: the matched text. -/
def Rx.search (ignoreCase : Bool) (rx : Rx) : List Char → Option (List Char)
  | [] => (rx.matchHere ignoreCase []).map (fun _ => [])
  | c :: cs =>
    match rx.matchHere ignoreCase (c :: cs) with
    | some (_, rest) => some ((c :: cs).take ((c :: cs).length - rest.length))
    | none => rx.search ignoreCase cs

/-- The call `s.replace(rx, f)` for a pattern with the flag `g`: every match,
left to right and not overlapping, is replaced by `f index captures match`,
where `index` counts the matches replaced before. -/
def replaceAllAux (ignoreCase : Bool) (rx : Rx) (f : Nat → Caps → List Char → List Char) :
    Nat → Nat → List Char → List Char
  | 0, _, s => s
  | fuel + 1, idx, s =>
    match rx.matchHere ignoreCase s with
    | some (caps, rest) =>
      if rest.length < s.length then
        f idx caps (s.take (s.length - rest.length))
          ++ replaceAllAux ignoreCase rx f fuel (idx + 1) rest
      else
        match s with
        | [] => f idx caps []
        | c :: cs => f idx caps [] ++ c :: replaceAllAux ignoreCase rx f fuel (idx + 1) cs
    | none =>
      match s with
      | [] => []
      | c :: cs => c :: replaceAllAux ignoreCase rx f fuel idx cs

/-- The call `s.replace(rx, f)` for a pattern with the flag `g`. -/
def replaceAll (ignoreCase : Bool) (rx : Rx) (f : Nat → Caps → List Char → List Char)
    (s : List Char) : List Char :=
  replaceAllAux ignoreCase rx f (s.length + 1) 0 s

/-- A piece of a replacement pattern: literal text or `$n`. -/
inductive ReplPart where
  | lit (s : String)
  | grp (n : Nat)
  deriving Repr

/-- The text a replacement pattern stands for at a match. -/
def expandRepl (parts : List ReplPart) (caps : Caps) : List Char :=
  (parts.map (fun p => match p with
    | .lit s => s.data
    | .grp n => capture caps n)).flatten

/-- The call `s.replace(rx, pattern)` for a pattern with the flag `g` and a
replacement pattern. -/
def replacePattern (ignoreCase : Bool) (rx : Rx) (parts : List ReplPart) (s : List Char) :
    List Char :=
  replaceAll ignoreCase rx (fun _ caps _ => expandRepl parts caps) s

/-! ## Video insertion (lines 479-509) -/

/-- The pattern `/BV[a-zA-Z0-9]+/` of line 494. -/
def bvidPattern : Rx :=
  .seq (Rx.word "BV") (Rx.plus (.set .alnum))

/-- The pattern `/\.(mp4|webm|ogg)$/i` of line 496, without its flag. -/
def videoFilePattern : Rx :=
  .seq (Rx.word ".")
    (.seq (.group 1 (.alt (Rx.word "mp4") (.alt (Rx.word "webm") (Rx.word "ogg")))) .eol)

/-- The outcome of lines 489-501: the `else` branch rejects, an array read
that gives `undefined` makes the following call throw, and otherwise the
variable `html` holds a string or is left `undefined`. -/
inductive VideoHtml where
  | rejected
  | thrown
  | html (value : Option String)
  deriving DecidableEq, Repr

/-- The expression `url.split(v=)[1].split(&)[0]` of line 491; `none` when the
first array read gives `undefined`. -/
def youtubeVideoId (url : String) : Option String :=
  match (jsSplit "v=".data url.data)[1]? with
  | none => none
  | some piece => (jsSplit "&".data piece)[0]?.map String.mk

/-- The template literal of line 492. -/
def youtubeMarkup (videoId width height : String) : String :=
  "<iframe src=\"https://www.youtube.com/embed/" ++ videoId ++ "\" width=\"" ++ width
    ++ "\" height=\"" ++ height
    ++ "\" style=\"border:none; border-radius: var(--radius);\" allowfullscreen></iframe>"

/-- The template literal of line 495. -/
def bilibiliMarkup (bvid width height : String) : String :=
  "<iframe src=\"//player.bilibili.com/player.html?bvid=" ++ bvid ++ "&page=1\" width=\""
    ++ width ++ "\" height=\"" ++ height
    ++ "\" style=\"border:none; border-radius: var(--radius);\" allowfullscreen></iframe>"

/-- The template literal of line 497. -/
def videoFileMarkup (url width height : String) : String :=
  "<video src=\"" ++ url ++ "\" width=\"" ++ width ++ "\" height=\"" ++ height
    ++ "\" controls style=\"border-radius: var(--radius);\"></video>"

/-- Lines 489-501 of `confirmVideo()`. -/
def videoHtml (url width height : String) : VideoHtml :=
  if jsIncludes "youtube.com/watch?v=".data url.data then
    match youtubeVideoId url with
    | none => .thrown
    | some videoId => .html (some (youtubeMarkup videoId width height))
  else if jsIncludes "bilibili.com/video/".data url.data then
    match bvidPattern.search false url.data with
    | some bvid => .html (some (bilibiliMarkup (String.mk bvid) width height))
    | none => .html none
  else if (videoFilePattern.search true url.data).isSome then
    .html (some (videoFileMarkup url width height))
  else .rejected

/-- The template literal of line 504; an `undefined` value of `html` is
written as the text `undefined`. -/
def videoParagraph (html : Option String) : String :=
  "<p style=\"text-align: center;\">" ++ jsToString html ++ "</p>"

/-- The method `confirmVideo()`, lines 479-509; `url`, `width` and `height`
are the values of the fields of the video dialog.  An exception thrown inside
the handler ends it with the state as it is. -/
def confirmVideo (host : Host) (url width height : String) (st : Editor) : Editor :=
  if decide (url = "") || !(jsStartsWith "http".data url.data) then
    showToast "请输入有效的视频链接" "warning" st
  else
    match videoHtml url width height with
    | .rejected => showToast "不支持的视频链接格式" "warning" st
    | .thrown => st
    | .html html =>
      let st1 := restoreSelection host st
      let st2 := execInsertHTML host (videoParagraph html) st1
      let st3 := showToast "视频已插入" "success" st2
      saveToHistory st3.innerHTML st3

/-! ## Image insertion (lines 432-472) -/

/-- The string `html` of line 467, with `style` and `className` as computed
at lines 459-465. -/
def imageMarkup (src width height : String) (rounded shadow border : Bool) : String :=
  let style0 := "max-width: 100%; width: " ++ width ++ "px; height: auto;"
  let style1 :=
    if height = "" then style0
    else "max-width: 100%; width: " ++ width ++ "px; height: " ++ height ++ "px;"
  let style2 := if rounded then style1 ++ "border-radius: var(--radius-lg);" else style1
  let className0 := ""
  let className1 := if shadow then className0 ++ " image-shadow" else className0
  let className2 := if border then className1 ++ " image-border" else className1
  "<p style=\"text-align: center;\"><img src=\"" ++ src ++ "\" style=\"" ++ style2
    ++ "\" class=\"" ++ jsTrim className2 ++ "\"></p>"

/-- The method `insertImageElement(src, width, height)`, lines 457-472;
`rounded`, `shadow` and `border` are the three check boxes of the dialog. -/
def insertImageElement (host : Host) (src width height : String)
    (rounded shadow border : Bool) (st : Editor) : Editor :=
  let st1 := restoreSelection host st
  let st2 := execInsertHTML host (imageMarkup src width height rounded shadow border) st1
  let st3 := showToast "图片已插入" "success" st2
  saveToHistory st3.innerHTML st3

/-- The method `confirmImage()`, lines 432-455, run to the end of the file
read: `urlInput` is the value of the URL field and `file` is the data URL that
reading the selected file delivers, `none` when no file is selected. -/
def confirmImage (host : Host) (urlInput : String) (file : Option String)
    (width height : String) (rounded shadow border : Bool) (st : Editor) : Editor :=
  if urlInput ≠ "" ∧ jsStartsWith "http".data urlInput.data = true then
    insertImageElement host urlInput width height rounded shadow border st
  else
    match file with
    | some dataUrl => insertImageElement host dataUrl width height rounded shadow border st
    | none => showToast "请选择图片文件或输入有效的图片URL" "warning" st

/-! ## Code block, quote and formatting commands (lines 359-376, 573-582) -/

/-- The native command facility for the formatting commands:
`exec command value sel content` is the outcome of
`document.execCommand(command, false, value)`, and `resizeFonts px content` is
the content after lines 364-370 have replaced the size marker of the `font`
elements by the pixel size. -/
structure CommandHost where
  exec : String → Option String → List Range → String → String × List Range
  resizeFonts : String → String → String

/-- The method `formatText(command, value, arg)`, lines 359-376; a `null`
value is logged as the text `null`. -/
def formatText (ch : CommandHost) (command : String) (value arg : Option String)
    (st : Editor) : Editor :=
  let st1 := { st with focused := true }
  let st2 := { st1 with innerHTML := (ch.exec command value st1.selection st1.innerHTML).1,
                        selection := (ch.exec command value st1.selection st1.innerHTML).2,
                        commands := st1.commands ++ [(command, value.getD "null")] }
  let st3 :=
    match arg with
    | some px =>
      if command = "fontSize" ∧ px ≠ "" then
        { st2 with innerHTML := ch.resizeFonts px st2.innerHTML }
      else st2
    | none => st2
  let st4 := { st3 with isDirty := true }
  saveToHistory st4.innerHTML st4

/-- The string `html` of line 574. -/
def codeBlockMarkup : String :=
  "<pre style=\"background: var(--bg-tertiary); padding: 16px; border-radius: var(--radius); overflow: auto; margin: 16px 0;\"><code>在此输入代码...</code></pre><p><br></p>"

/-- The method `insertCodeBlock()`, lines 573-577. -/
def insertCodeBlock (host : Host) (st : Editor) : Editor :=
  showToast "代码块已插入" "success" (execInsertHTML host codeBlockMarkup st)

/-- The method `insertQuote()`, lines 579-582. -/
def insertQuote (ch : CommandHost) (st : Editor) : Editor :=
  showToast "引用格式已应用" "success" (formatText ch "formatBlock" (some "blockquote") none st)

/-- A command host that wraps the content in the block named by the value of
`formatBlock` and leaves the content alone otherwise. -/
def wrappingCommandHost : CommandHost :=
  { exec := fun command value sel content =>
      if command = "formatBlock" then
        ("<" ++ value.getD "" ++ ">" ++ content ++ "</" ++ value.getD "" ++ ">", sel)
      else (content, sel)
    resizeFonts := fun _ content => content }

/-- Reads a fragment that consists of a centred paragraph wrapping one empty
element: the tag name and the attributes of that element. -/
def readPlayer (fragment : String) : Option (String × List (String × String)) :=
  match tokens fragment with
  | some [.startTag p pattrs, .startTag name attrs, .endTag name1, .endTag p1] =>
    if p = "p" ∧ p1 = "p" ∧ name1 = name ∧ pattrs.lookup "style" = some "text-align: center;" then
      some (name, attrs)
    else none
  | _ => none

/-! ## Import (lines 822-875) and saving (lines 95-112) -/

/-- A value that `JSON.parse` returns.  A number is kept as the text that
`String(n)` gives for it; an object is the list of its properties. -/
inductive JsValue where
  | null
  | bool (b : Bool)
  | num (text : String)
  | str (s : String)
  | arr (items : List JsValue)
  | obj (props : List (String × JsValue))
  deriving Repr

/-- Whether a value counts as true in a condition: `null`, `false`, the
numbers `0` and `NaN` and the empty string do not. -/
def JsValue.truthy : JsValue → Bool
  | .null => false
  | .bool b => b
  | .num text => text ≠ "0" && text ≠ "NaN"
  | .str s => s ≠ ""
  | .arr _ => true
  | .obj _ => true

/-- Whether the outcome of a property read counts as true; `undefined` does
not. -/
def truthyProp : Option JsValue → Bool
  | some v => v.truthy
  | none => false

/-- The property read `data.name` for a name that no prototype defines:
`none` in the outer option when the read throws (on `null`), `undefined`
(inner `none`) for a value without that property. -/
def JsValue.prop (name : String) : JsValue → Option (Option JsValue)
  | .null => none
  | .obj props => some (props.lookup name)
  | _ => some none

/-- The conversion of a value to a string, as an assignment to `textContent`
or `innerHTML` performs it; an array is converted by the host function
`arrayText`. -/
def JsValue.text (arrayText : List JsValue → String) : JsValue → String
  | .null => "null"
  | .bool b => if b then "true" else "false"
  | .num text => text
  | .str s => s
  | .arr items => arrayText items
  | .obj _ => "[object Object]"

/-- The assignment `object[name] = value` on a property list. -/
def objSet (name : String) (value : JsValue) :
    List (String × JsValue) → List (String × JsValue)
  | [] => [(name, value)]
  | (k, v) :: rest => if k = name then (k, value) :: rest else (k, v) :: objSet name value rest

/-- The object `{ ...a, ...b }`. -/
def objSpread (a b : List (String × JsValue)) : List (String × JsValue) :=
  b.foldl (fun acc kv => objSet kv.1 kv.2 acc) a

/-- The own enumerable properties that a spread copies from a value. -/
def JsValue.ownProps (indexProps : List JsValue → List (String × JsValue)) :
    JsValue → List (String × JsValue)
  | .obj props => props
  | .arr items => indexProps items
  | _ => []

/-- The page state that importing and saving act on: the editor, the text of
the title element, the record `this.document` and the entry
`prodoc_document` of the local storage. -/
structure Page where
  editor : Editor
  docTitle : String
  document : List (String × JsValue)
  storage : Option String

/-- The facilities importing and saving call: `parseJSON` is `JSON.parse`
(`none` when it throws), `stringify` is `JSON.stringify`, `metadata content`
is the object built at lines 100-104 from the counts that `updateStats()`
displays, `now` is `Date.now()`, and `arrayText`, `indexProps` convert arrays
to a string and to their index properties. -/
structure ImportHost where
  parseJSON : String → Option JsValue
  stringify : JsValue → String
  metadata : String → JsValue
  now : String
  arrayText : List JsValue → String
  indexProps : List JsValue → List (String × JsValue)

/-- The call `s.endsWith(p)`, on character lists. -/
def jsEndsWith (p s : List Char) : Bool :=
  jsStartsWith p.reverse s.reverse

/-- The call `pieces.join(sep)`. -/
def jsJoin (sep : List Char) : List (List Char) → List Char
  | [] => []
  | [x] => x
  | x :: y :: rest => x ++ sep ++ jsJoin sep (y :: rest)

/-- The method `saveDocument()`, lines 95-112, without a toast. -/
def saveDocument (ih : ImportHost) (pg : Page) : Page :=
  let title := if jsTrim pg.docTitle = "" then "无标题文档" else jsTrim pg.docTitle
  let doc1 := objSet "title" (.str title) pg.document
  let doc2 := objSet "content" (.str pg.editor.innerHTML) doc1
  let doc3 := objSet "modified" (.num ih.now) doc2
  let doc4 := objSet "metadata" (ih.metadata pg.editor.innerHTML) doc3
  { pg with document := doc4
            storage := some (ih.stringify (.obj doc4))
            editor := { pg.editor with isDirty := false } }

/-- The tail of the `try` block, lines 856-858. -/
def finishImport (ih : ImportHost) (pg : Page) : Page :=
  let ed1 := updateAfterHistory pg.editor
  let ed2 := saveToHistory ed1.innerHTML ed1
  saveDocument ih { pg with editor := ed2 }

/-- The handler `reader.onload` of `importDocument()`, lines 834-863, for a
file with name `fileName` and text `content`. -/
def importFile (ih : ImportHost) (fileName content : String) (pg : Page) : Page :=
  if jsEndsWith ".json".data fileName.data then
    match ih.parseJSON content with
    | none => { pg with editor := showToast "文件导入或解析失败" "error" pg.editor }
    | some data =>
      match data.prop "title", data.prop "content" with
      | some title, some body =>
        if truthyProp title && truthyProp body then
          let pg1 : Page :=
            { pg with docTitle := jsToString (title.map (JsValue.text ih.arrayText))
                      editor := showToast "JSON 文档已成功导入" "success"
                        { pg.editor with
                            innerHTML := jsToString (body.map (JsValue.text ih.arrayText)) }
                      document := objSpread pg.document (data.ownProps ih.indexProps) }
          finishImport ih pg1
        else { pg with editor := showToast "导入失败：无效的 ProDoc JSON 格式" "error" pg.editor }
      | _, _ => { pg with editor := showToast "文件导入或解析失败" "error" pg.editor }
  else
    let pieces := jsSplit ".".data fileName.data
    let stem := jsJoin ".".data pieces.dropLast
    let title := if stem = [] then "导入的文档" else String.mk stem
    let body := replacePattern false (Rx.word "\n") [.lit "<br>"]
      (replacePattern false (Rx.word "\n\n") [.lit "</p><p>"] content.data)
    let pg1 : Page :=
      { pg with docTitle := title
                editor := showToast ("已导入 " ++ fileName) "success"
                  { pg.editor with innerHTML := "<p>" ++ String.mk body ++ "</p>" } }
    finishImport ih pg1

/-- An import host for examples: it parses two sample texts and fails on
every other text. -/
def sampleImportHost : ImportHost :=
  { parseJSON := fun text =>
      if text = "\x7b\"title\":\"T\",\"content\":\"<p>c</p>\"\x7d" then
        some (.obj [("title", .str "T"), ("content", .str "<p>c</p>")])
      else if text = "\x7b\"title\":\"T\"\x7d" then some (.obj [("title", .str "T")])
      else if text = "null" then some .null
      else none
    stringify := fun _ => "\x7b\x7d"
    metadata := fun _ => .obj []
    now := "0"
    arrayText := fun _ => ""
    indexProps := fun _ => [] }

/-- A page with the given editor state and an empty record. -/
def samplePage (content : String) : Page :=
  { editor := recordAll [content] (Editor.initial content), docTitle := "Old title",
    document := [("title", .str "Old title")], storage := none }

/-- Whether the parsed value has a property `name` that counts as true; a
value on which the property read throws has none. -/
def hasTruthyField (name : String) (data : JsValue) : Bool :=
  match data.prop name with
  | some v => truthyProp v
  | none => false

/-! ## Markdown export (lines 780-806) -/

/-- The pattern `<name[^>]*>`. -/
def Rx.openTag (name : String) : Rx :=
  .seq (Rx.word ("<" ++ name)) (.seq (.star true (.set (.notOf ['>']))) (Rx.word ">"))

/-- The group `(.*?)` with number `n`. -/
def Rx.lazyDots (n : Nat) : Rx :=
  .group n (.star false (.set .dot))

/-- The pattern `<name[^>]*>(.*?)<\/name>`. -/
def Rx.element (name : String) : Rx :=
  .seq (Rx.openTag name) (.seq (Rx.lazyDots 1) (Rx.word ("</" ++ name ++ ">")))

/-- The pattern `<name>(.*?)<\/name>`. -/
def Rx.bareElement (name : String) : Rx :=
  .seq (Rx.word ("<" ++ name ++ ">")) (.seq (Rx.lazyDots 1) (Rx.word ("</" ++ name ++ ">")))

/-- The pattern `<name[^>]*>([\s\S]*?)<\/name>`. -/
def Rx.listElement (name : String) : Rx :=
  .seq (Rx.openTag name)
    (.seq (.group 1 (.star false (.set .all))) (Rx.word ("</" ++ name ++ ">")))

/-- The pattern `<a href="([^"]*)"[^>]*>(.*?)<\/a>` of line 794. -/
def anchorRx : Rx :=
  .seq (Rx.word "<a href=\"")
    (.seq (.group 1 (.star true (.set (.notOf ['"']))))
      (.seq (Rx.word "\"")
        (.seq (.star true (.set (.notOf ['>'])))
          (.seq (Rx.word ">") (.seq (Rx.lazyDots 2) (Rx.word "</a>"))))))

/-- The pattern `<img src="([^"]*)"[^>]*>` of line 795. -/
def imageRx : Rx :=
  .seq (Rx.word "<img src=\"")
    (.seq (.group 1 (.star true (.set (.notOf ['"']))))
      (.seq (Rx.word "\"") (.seq (.star true (.set (.notOf ['>']))) (Rx.word ">"))))

/-- The pattern `<pre[^>]*><code[^>]*>(.*?)<\/code><\/pre>` of line 796. -/
def codeRx : Rx :=
  .seq (Rx.openTag "pre")
    (.seq (Rx.openTag "code") (.seq (Rx.lazyDots 1) (Rx.word "</code></pre>")))

/-- The pattern `<br\s*\/?>` of line 798. -/
def breakRx : Rx :=
  .seq (Rx.word "<br")
    (.seq (.star true (.set .space)) (.seq (Rx.opt (.set (.one '/'))) (Rx.word ">")))

/-- The replacement function of line 788 for an unordered list. -/
def unorderedItems (caps : Caps) : List Char :=
  replacePattern true (Rx.element "li") [.lit "- ", .grp 1, .lit "\n"] (capture caps 1)
    ++ "\n".data

/-- The replacement function of lines 789-792 for an ordered list: the counter
`i` starts at 1 for each list. -/
def orderedItems (caps : Caps) : List Char :=
  replaceAll true (Rx.element "li")
    (fun idx caps1 _ => (toString (idx + 1)).data ++ ". ".data ++ capture caps1 1 ++ "\n".data)
    (capture caps 1) ++ "\n".data

/-- The replacement function of line 793 for a blockquote. -/
def quoteLines (caps : Caps) : List Char :=
  "> ".data ++ replacePattern true (Rx.element "p") [.grp 1, .lit "\n"] (capture caps 1)
    ++ "\n".data

/-- The chain of replacements of lines 783-798, all with the flags `gi`. -/
def markdownRewrite (content : String) : String :=
  let m0 := content.data
  let m1 := replacePattern true (Rx.element "h1") [.lit "# ", .grp 1, .lit "\n\n"] m0
  let m2 := replacePattern true (Rx.element "h2") [.lit "## ", .grp 1, .lit "\n\n"] m1
  let m3 := replacePattern true (Rx.element "h3") [.lit "### ", .grp 1, .lit "\n\n"] m2
  let m4 := replacePattern true (Rx.bareElement "strong") [.lit "**", .grp 1, .lit "**"] m3
  let m5 := replacePattern true (Rx.bareElement "b") [.lit "**", .grp 1, .lit "**"] m4
  let m6 := replacePattern true (Rx.bareElement "em") [.lit "*", .grp 1, .lit "*"] m5
  let m7 := replacePattern true (Rx.bareElement "i") [.lit "*", .grp 1, .lit "*"] m6
  let m8 := replaceAll true (Rx.listElement "ul") (fun _ caps _ => unorderedItems caps) m7
  let m9 := replaceAll true (Rx.listElement "ol") (fun _ caps _ => orderedItems caps) m8
  let m10 := replaceAll true (Rx.element "blockquote") (fun _ caps _ => quoteLines caps) m9
  let m11 := replacePattern true anchorRx [.lit "[", .grp 2, .lit "](", .grp 1, .lit ")"] m10
  let m12 := replacePattern true imageRx [.lit "![Image](", .grp 1, .lit ")"] m11
  let m13 := replacePattern true codeRx [.lit "```\n", .grp 1, .lit "\n```\n\n"] m12
  let m14 := replacePattern true (Rx.element "p") [.grp 1, .lit "\n\n"] m13
  let m15 := replacePattern true breakRx [.lit "\n"] m14
  String.mk m15

/-- A call of `downloadFile(content, filename, mimeType)`. -/
structure Download where
  content : String
  filename : String
  mimeType : String
  deriving DecidableEq, Repr

/-- The first argument of the `downloadFile` call of line 804: the rewritten
markup is rendered into a detached element, whose text content `textOf` gives,
and trimmed. -/
def markdownPayload (textOf : String → String) (content : String) : String :=
  jsTrim (textOf (markdownRewrite content))

/-- The method `exportMarkdown(title, content)`, lines 780-806: the download
it starts and the state after its toast. -/
def exportMarkdown (textOf : String → String) (title content : String) (st : Editor) :
    Download × Editor :=
  (⟨markdownPayload textOf content, title ++ ".md", "text/markdown;charset=utf-8"⟩,
    showToast "Markdown 文档已导出" "success" st)

/-- The text content of a piece of markup as the reader of this file gives
it: the text tokens in order; markup outside the reader is left as it is. -/
def markupText (markup : String) : String :=
  match tokens markup with
  | some toks =>
    String.join (toks.map (fun t => match t with
      | .text data => data
      | _ => ""))
  | none => markup

/-- The lines of a text. -/
def textLines (s : String) : List String :=
  (jsSplit "\n".data s.data).map String.mk

/-! ## Word export: `parseNodeToDocx` (lines 645-694) -/

/-- A node of the content tree: a text node, an element with its upper-case
node name, its `style.textAlign` (empty when not set) and its children, or a
node of another kind such as a comment. -/
inductive DomNode where
  | text (content : String)
  | element (nodeName : String) (textAlign : String) (children : List DomNode)
  | other
  deriving Repr

/-- What `parseNodeToDocx` builds: a text run with its four flags, or a
paragraph with its heading level, style, alignment and children. -/
inductive DocxItem where
  | run (text : String) (bold italic underline strike : Bool)
  | paragraph (heading style alignment : Option String) (children : List DocxItem)
  deriving Repr

/-- Lines 663-668: the chain calls `bold()`, `italic()`, `underline()` and
`strike()` set the flag they name on a run, according to the node name of the
parent; a paragraph among the child results is passed on as it is. -/
def styleRun (parentName : String) : DocxItem → DocxItem
  | .run text bold italic underline strike =>
    .run text (bold || parentName = "STRONG" || parentName = "B")
      (italic || parentName = "EM" || parentName = "I")
      (underline || parentName = "U") (strike || parentName = "S")
  | item => item

/-- The test `node.innerHTML === <br>`: the only child is a `br` element
without attributes. -/
def isBreakOnly : List DomNode → Bool
  | [.element name align []] => name = "BR" && align = ""
  | _ => false

/-- Lines 672-693: the paragraph options for the node name and alignment, and
the result for the collected runs. -/
def wrapRuns (nodeName textAlign : String) (breakOnly : Bool) (runs : List DocxItem) :
    List DocxItem :=
  let alignment : Option String :=
    if textAlign = "center" then some "CENTER"
    else if textAlign = "right" then some "RIGHT"
    else if textAlign = "justify" then some "JUSTIFY"
    else none
  let wrap (heading style : Option String) : List DocxItem :=
    if !runs.isEmpty || breakOnly then [.paragraph heading style alignment runs] else []
  if nodeName = "H1" then wrap (some "HEADING_1") none
  else if nodeName = "H2" then wrap (some "HEADING_2") none
  else if nodeName = "H3" then wrap (some "HEADING_3") none
  else if nodeName = "P" then wrap none none
  else if nodeName = "BLOCKQUOTE" then wrap none (some "IntenseQuote")
  else runs

mutual
/-- The function `parseNodeToDocx(node)`, lines 645-694. -/
def parseNodeToDocx : DomNode → List DocxItem
  | .text content => [.run content false false false false]
  | .other => []
  | .element nodeName textAlign children =>
    wrapRuns nodeName textAlign (isBreakOnly children) (parseChildren nodeName children)
/-- The loop of lines 654-670 over the child nodes of an element named
`parentName`. -/
def parseChildren (parentName : String) : List DomNode → List DocxItem
  | [] => []
  | child :: rest =>
    (parseNodeToDocx child).map (styleRun parentName) ++ parseChildren parentName rest
end

/-- Line 696: the results for the child nodes of the editor, in order. -/
def docxChildren (nodes : List DomNode) : List DocxItem :=
  nodes.flatMap parseNodeToDocx

/-- Whether an item is a paragraph whose children are all runs. -/
def isFlatParagraph : DocxItem → Bool
  | .paragraph _ _ _ children =>
    children.all (fun c => match c with
      | .run _ _ _ _ _ => true
      | .paragraph _ _ _ _ => false)
  | .run _ _ _ _ _ => false

/-! ## Theorems -/

theorem jsIndex_eq_some {arr : List String} {i : Int} {s : String}
    (h : jsIndex arr i = some s) :
    0 ≤ i ∧ i < (arr.length : Int) ∧ arr[i.toNat]? = some s := by
  unfold jsIndex at h
  split at h
  · rename_i h0
    refine ⟨h0, ?_, h⟩
    obtain ⟨hlt, _⟩ := List.getElem?_eq_some.mp h
    omega
  · simp at h

theorem jsIndex_last (l : List String) (s : String) (i : Int)
    (hi : i = (l.length : Int)) : jsIndex (l ++ [s]) i = some s := by
  subst hi
  simp [jsIndex]

theorem jsIndex_tail (l : List String) (i : Int) (hi : 1 ≤ i) :
    jsIndex l.tail (i - 1) = jsIndex l i := by
  unfold jsIndex
  have h1 : (0 : Int) ≤ i - 1 := by omega
  have h2 : (0 : Int) ≤ i := by omega
  simp only [h1, h2, if_true]
  obtain ⟨n, rfl⟩ : ∃ n : Nat, i = (n : Int) + 1 := ⟨(i - 1).toNat, by omega⟩
  cases l with
  | nil => simp
  | cons a t =>
    have e1 : ((n : Int) + 1 - 1).toNat = n := by omega
    have e2 : ((n : Int) + 1).toNat = n + 1 := by omega
    simp [e1, e2]

/-- In a consistent state a snapshot that differs from the entry at the cursor
is appended after the entries up to the cursor; the oldest entry is dropped
when that makes 51 entries. -/
theorem saveToHistory_of_ne (st : Editor) (s : String) (hc : Consistent st)
    (hne : jsIndex st.history st.historyIndex ≠ some s) :
    saveToHistory s st =
      if 50 < (st.history.take (st.historyIndex + 1).toNat ++ [s]).length then
        { st with history := (st.history.take (st.historyIndex + 1).toNat ++ [s]).tail,
                  historyIndex := st.historyIndex }
      else
        { st with history := st.history.take (st.historyIndex + 1).toNat ++ [s],
                  historyIndex := st.historyIndex + 1 } := by
  have hslice : (if st.historyIndex < (st.history.length : Int) - 1 then
        jsSliceFromZero st.history (st.historyIndex + 1) else st.history)
      = st.history.take (st.historyIndex + 1).toNat := by
    have hge : ¬ (st.historyIndex + 1 < 0) := by
      rcases hc with ⟨_, h⟩ | ⟨_, h, _⟩ <;> omega
    split
    · simp [jsSliceFromZero, hge]
    · rename_i hlt
      have hlen : st.history.length ≤ (st.historyIndex + 1).toNat := by
        rcases hc with ⟨h0, h⟩ | ⟨_, h, h2⟩
        · simp [h0]
        · omega
      exact (List.take_of_length_le hlen).symm
  unfold saveToHistory
  rw [if_neg hne]
  simp only [hslice]
  split <;> simp

theorem saveToHistory_eq_self (st : Editor) (s : String)
    (h : jsIndex st.history st.historyIndex = some s) : saveToHistory s st = st := by
  simp [saveToHistory, h]

/-- After `saveToHistory(s)` in a consistent state, the cursor is on an entry equal to `s`
and the state is well formed. -/
theorem saveToHistory_cursor (st : Editor) (s : String) (hc : Consistent st) :
    WellFormed (saveToHistory s st) ∧
      jsIndex (saveToHistory s st).history (saveToHistory s st).historyIndex = some s := by
  by_cases heq : jsIndex st.history st.historyIndex = some s
  · have hst : saveToHistory s st = st := by simp [saveToHistory, heq]
    rw [hst]
    refine ⟨?_, heq⟩
    obtain ⟨h0, h1, _⟩ := jsIndex_eq_some heq
    rcases hc with ⟨hnil, _⟩ | hw
    · simp [hnil] at h1; omega
    · exact hw
  · rw [saveToHistory_of_ne st s hc heq]
    have hidx : -1 ≤ st.historyIndex ∧ st.historyIndex < (st.history.length : Int) ∨
        (st.history = [] ∧ st.historyIndex = -1) := by
      rcases hc with h | ⟨_, h, h2⟩
      · exact Or.inr h
      · exact Or.inl ⟨by omega, h2⟩
    have hlen50 : st.history.length ≤ 50 := by
      rcases hc with ⟨h, _⟩ | ⟨h, _⟩
      · simp [h]
      · exact h
    have htake : (st.history.take (st.historyIndex + 1).toNat).length
        = (st.historyIndex + 1).toNat := by
      rw [List.length_take]
      rcases hidx with ⟨h1, h2⟩ | ⟨h1, h2⟩
      · omega
      · simp [h1, h2]
    have hnn : 0 ≤ st.historyIndex + 1 := by
      rcases hidx with ⟨h1, _⟩ | ⟨_, h2⟩ <;> omega
    split <;> rename_i h50
    · simp only [List.length_append, List.length_singleton, htake] at h50
      refine ⟨⟨?_, ?_, ?_⟩, ?_⟩
      · show (st.history.take (st.historyIndex + 1).toNat ++ [s]).tail.length ≤ 50
        simp only [List.length_tail, List.length_append, List.length_singleton, htake]
        omega
      · show 0 ≤ st.historyIndex
        omega
      · show st.historyIndex
          < ((st.history.take (st.historyIndex + 1).toNat ++ [s]).tail.length : Int)
        simp only [List.length_tail, List.length_append, List.length_singleton, htake]
        omega
      · show jsIndex (st.history.take (st.historyIndex + 1).toNat ++ [s]).tail st.historyIndex
          = some s
        have := jsIndex_tail (st.history.take (st.historyIndex + 1).toNat ++ [s])
          (st.historyIndex + 1) (by omega)
        simp only [add_sub_cancel_right] at this
        rw [this]
        exact jsIndex_last _ _ _ (by rw [htake]; omega)
    · simp only [List.length_append, List.length_singleton, htake] at h50
      refine ⟨⟨?_, ?_, ?_⟩, ?_⟩
      · show (st.history.take (st.historyIndex + 1).toNat ++ [s]).length ≤ 50
        simp only [List.length_append, List.length_singleton, htake]
        omega
      · show 0 ≤ st.historyIndex + 1
        omega
      · show st.historyIndex + 1
          < ((st.history.take (st.historyIndex + 1).toNat ++ [s]).length : Int)
        simp only [List.length_append, List.length_singleton, htake]
        omega
      · show jsIndex (st.history.take (st.historyIndex + 1).toNat ++ [s]) (st.historyIndex + 1)
          = some s
        exact jsIndex_last _ _ _ (by rw [htake]; omega)

/-- C1 (history dedupe): when the snapshot equals the entry at the cursor,
`saveToHistory` returns the state unchanged, so the history list, its length
and `historyIndex` stay as they were; and in every consistent state (which
covers every state the editor reaches) recording the same content a second
time in a row changes nothing, so the two calls together add at most one
entry. -/
theorem saveToHistory_dedupe (st : Editor) (s : String) :
    (jsIndex st.history st.historyIndex = some s →
        saveToHistory s st = st ∧
        (saveToHistory s st).history = st.history ∧
        (saveToHistory s st).history.length = st.history.length ∧
        (saveToHistory s st).historyIndex = st.historyIndex) ∧
    (Consistent st →
        saveToHistory s (saveToHistory s st) = saveToHistory s st ∧
        (saveToHistory s (saveToHistory s st)).history.length ≤ st.history.length + 1) := by
  constructor
  · intro h
    have hst : saveToHistory s st = st := by simp [saveToHistory, h]
    simp [hst]
  · intro hc
    obtain ⟨_, hcur⟩ := saveToHistory_cursor st s hc
    have h2 : saveToHistory s (saveToHistory s st) = saveToHistory s st :=
      saveToHistory_eq_self _ _ hcur
    refine ⟨h2, ?_⟩
    rw [h2]
    by_cases heq : jsIndex st.history st.historyIndex = some s
    · have hst : saveToHistory s st = st := by simp [saveToHistory, heq]
      rw [hst]; omega
    · rw [saveToHistory_of_ne st s hc heq]
      split
      · show (st.history.take (st.historyIndex + 1).toNat ++ [s]).tail.length ≤ _
        simp only [List.length_tail, List.length_append, List.length_singleton,
          List.length_take]
        omega
      · show (st.history.take (st.historyIndex + 1).toNat ++ [s]).length ≤ _
        simp only [List.length_append, List.length_singleton, List.length_take]
        omega

theorem saveToHistory_dedupe_witness :
    jsIndex (recordAll ["<p>a</p>"] (Editor.initial "<p>a</p>")).history
        (recordAll ["<p>a</p>"] (Editor.initial "<p>a</p>")).historyIndex = some "<p>a</p>" ∧
    saveToHistory "<p>a</p>" (recordAll ["<p>a</p>"] (Editor.initial "<p>a</p>"))
        = recordAll ["<p>a</p>"] (Editor.initial "<p>a</p>") ∧
    Consistent (Editor.initial "<p>a</p>") ∧
    saveToHistory "<p>a</p>" (saveToHistory "<p>a</p>" (Editor.initial "<p>a</p>"))
        = saveToHistory "<p>a</p>" (Editor.initial "<p>a</p>") :=
  ⟨by decide,
   ((saveToHistory_dedupe (recordAll ["<p>a</p>"] (Editor.initial "<p>a</p>")) "<p>a</p>").1
      (by decide)).1,
   by decide,
   ((saveToHistory_dedupe (Editor.initial "<p>a</p>") "<p>a</p>").2 (by decide)).1⟩

/-- The cursor sits on the last entry and the bound holds; the constructor
state is of this kind. -/
theorem recordAll_aux (l : List String) :
    ∀ st : Editor, st.history.length ≤ 50 →
      st.historyIndex = (st.history.length : Int) - 1 →
      List.Chain' (fun a b => a ≠ b) (st.history ++ l) →
      (recordAll l st).history = (st.history ++ l).drop ((st.history ++ l).length - 50) ∧
      (recordAll l st).historyIndex = ((recordAll l st).history.length : Int) - 1 := by
  induction l with
  | nil =>
    intro st h50 hidx _
    have : st.history.length - 50 = 0 := by omega
    simp [recordAll, this, hidx]
  | cons s t ih =>
    intro st h50 hidx hch
    have hcons : Consistent st := by
      by_cases hnil : st.history = []
      · left; exact ⟨hnil, by simp [hidx, hnil]⟩
      · right
        have : 0 < st.history.length := List.length_pos.mpr hnil
        exact ⟨h50, by omega, by omega⟩
    have hne : jsIndex st.history st.historyIndex ≠ some s := by
      intro heq
      obtain ⟨h0, h1, hget⟩ := jsIndex_eq_some heq
      have hlast : st.history.getLast? = some s := by
        rw [List.getLast?_eq_getElem?]
        have : st.historyIndex.toNat = st.history.length - 1 := by omega
        rw [← this]; exact hget
      have := (List.chain'_append.mp hch).2.2 s (by simp [hlast]) s (by simp)
      exact this rfl
    have htake : st.history.take (st.historyIndex + 1).toNat = st.history := by
      apply List.take_of_length_le; omega
    have hstep := saveToHistory_of_ne st s hcons hne
    rw [htake] at hstep
    have hrec : recordAll (s :: t) st = recordAll t (saveToHistory s st) := rfl
    rw [hrec]
    by_cases h51 : 50 < (st.history ++ [s]).length
    · rw [if_pos h51] at hstep
      have hlen : st.history.length = 50 := by
        simp only [List.length_append, List.length_singleton] at h51; omega
      have hh : (saveToHistory s st).history = (st.history ++ [s]).tail := by rw [hstep]
      have hi : (saveToHistory s st).historyIndex = st.historyIndex := by rw [hstep]
      have hl2 : (saveToHistory s st).history.length = 50 := by
        rw [hh]; simp [hlen]
      have hch2 : List.Chain' (fun a b => a ≠ b) ((saveToHistory s st).history ++ t) := by
        have e : (saveToHistory s st).history ++ t = (st.history ++ s :: t).tail := by
          rw [hh]
          cases hst : st.history with
          | nil => simp [hst] at hlen
          | cons a r => simp
        rw [e]
        exact hch.tail
      obtain ⟨ih1, ih2⟩ := ih (saveToHistory s st) (by omega) (by rw [hi, hidx, hl2, hlen]) hch2
      refine ⟨?_, ih2⟩
      rw [ih1, hh]
      cases hst : st.history with
      | nil => simp [hst] at hlen
      | cons a r =>
        have hr : r.length = 49 := by simp [hst] at hlen; omega
        simp only [List.cons_append, List.tail_cons, List.length_cons, List.length_append,
          List.append_assoc, List.singleton_append, hr]
        have : 49 + (t.length + 1) + 1 - 50 = (49 + (t.length + 1) - 50) + 1 := by omega
        rw [this, List.drop_succ_cons]
        simp
    · rw [if_neg h51] at hstep
      have hlen : st.history.length + 1 ≤ 50 := by
        simp only [List.length_append, List.length_singleton] at h51; omega
      have hh : (saveToHistory s st).history = st.history ++ [s] := by rw [hstep]
      have hi : (saveToHistory s st).historyIndex = st.historyIndex + 1 := by rw [hstep]
      have hch2 : List.Chain' (fun a b => a ≠ b) ((saveToHistory s st).history ++ t) := by
        rw [hh]; simpa using hch
      obtain ⟨ih1, ih2⟩ := ih (saveToHistory s st) (by rw [hh]; simpa using hlen)
        (by rw [hi, hidx, hh]; simp) hch2
      refine ⟨?_, ih2⟩
      rw [ih1, hh]
      simp

/-- C2 (bounded history): recording pairwise distinct snapshots in order from
the constructor state leaves exactly the last `min n 50` of them, in their
order, with `historyIndex` on the last entry; for 60 snapshots these are the
50 entries after the first 10, and `historyIndex = 49`. -/
theorem recordAll_bounded (snaps : List String) (content : String) (hd : snaps.Nodup) :
    (recordAll snaps (Editor.initial content)).history
        = snaps.drop (snaps.length - min snaps.length 50) ∧
    (recordAll snaps (Editor.initial content)).history.length = min snaps.length 50 ∧
    (recordAll snaps (Editor.initial content)).historyIndex
        = ((min snaps.length 50 : Nat) : Int) - 1 ∧
    (snaps.length = 60 →
      (recordAll snaps (Editor.initial content)).history = snaps.drop 10 ∧
      (recordAll snaps (Editor.initial content)).history.length = 50 ∧
      (recordAll snaps (Editor.initial content)).historyIndex = 49) := by
  have hch : List.Chain' (fun a b => a ≠ b) ((Editor.initial content).history ++ snaps) := by
    show List.Chain' (fun a b => a ≠ b) ([] ++ snaps)
    simpa using (List.Pairwise.chain' hd)
  obtain ⟨h1, h2⟩ := recordAll_aux snaps (Editor.initial content) (by simp [Editor.initial])
    (by simp [Editor.initial]) hch
  have h1b : (recordAll snaps (Editor.initial content)).history
      = snaps.drop (snaps.length - 50) := by
    rw [h1]; simp [Editor.initial]
  have hk : snaps.length - min snaps.length 50 = snaps.length - 50 := by omega
  have hlen : (recordAll snaps (Editor.initial content)).history.length
      = min snaps.length 50 := by
    rw [h1b, List.length_drop]; omega
  refine ⟨by rw [hk]; exact h1b, hlen, by rw [h2, hlen], ?_⟩
  intro h60
  refine ⟨by rw [h1b, h60], by rw [hlen, h60]; rfl, by rw [h2, hlen, h60]; rfl⟩

theorem recordAll_bounded_witness :
    sampleSnapshots.Nodup ∧ sampleSnapshots.length = 60 ∧
    (recordAll sampleSnapshots (Editor.initial "")).history = sampleSnapshots.drop 10 ∧
    (recordAll sampleSnapshots (Editor.initial "")).history.length = 50 ∧
    (recordAll sampleSnapshots (Editor.initial "")).historyIndex = 49 :=
  ⟨by decide, by decide,
    (recordAll_bounded sampleSnapshots "" (by decide)).2.2.2 (by decide)⟩

/-! ### undo and redo -/

theorem undo_history (st : Editor) : (undo st).history = st.history := by
  unfold undo; split <;> rfl

theorem redo_history (st : Editor) : (redo st).history = st.history := by
  unfold redo; split <;> rfl

theorem undo_index (st : Editor) :
    (undo st).historyIndex = if 0 < st.historyIndex then st.historyIndex - 1 else st.historyIndex := by
  unfold undo; split <;> rfl

theorem redo_index (st : Editor) :
    (redo st).historyIndex =
      if st.historyIndex < (st.history.length : Int) - 1 then st.historyIndex + 1
      else st.historyIndex := by
  unfold redo; split <;> rfl

theorem jsIndex_of_lt (arr : List String) (i : Int) (h0 : 0 ≤ i) (h1 : i < (arr.length : Int)) :
    ∃ e, jsIndex arr i = some e := by
  have hlt : i.toNat < arr.length := by omega
  exact ⟨arr[i.toNat], by simp [jsIndex, h0, List.getElem?_eq_getElem hlt]⟩

theorem undo_consistent (st : Editor) (hc : Consistent st) : Consistent (undo st) := by
  unfold Consistent WellFormed at *
  rw [undo_history, undo_index]
  split <;> rename_i h
  · right
    rcases hc with ⟨_, h2⟩ | ⟨h1, h2, h3⟩
    · omega
    · exact ⟨h1, by omega, by omega⟩
  · exact hc

theorem redo_consistent (st : Editor) (hc : Consistent st) : Consistent (redo st) := by
  unfold Consistent WellFormed at *
  rw [redo_history, redo_index]
  split <;> rename_i h
  · right
    rcases hc with ⟨h1, h2⟩ | ⟨h1, h2, h3⟩
    · simp [h1, h2] at h
    · exact ⟨h1, by omega, by omega⟩
  · exact hc

theorem apply_consistent (op : HistoryOp) (st : Editor) (hc : Consistent st) :
    Consistent (op.apply st) := by
  cases op with
  | save c => exact Or.inr (saveToHistory_cursor st c hc).1
  | undo => exact undo_consistent st hc
  | redo => exact redo_consistent st hc

theorem runOps_consistent (ops : List HistoryOp) :
    ∀ st : Editor, Consistent st → Consistent (runOps ops st) := by
  induction ops with
  | nil => intro st hc; exact hc
  | cons op rest ih =>
    intro st hc
    exact ih (op.apply st) (apply_consistent op st hc)

theorem initial_consistent (content : String) : Consistent (Editor.initial content) :=
  Or.inl ⟨rfl, rfl⟩

/-- C3 (undo/redo linearity): in a well-formed state with the cursor at
`i > 0`, `undo()` followed by `saveToHistory(s)` for an `s` different from
`history[i-1]` leaves the entries `0..i-1` followed by `s`, with the cursor on
that last entry, and a following `redo()` changes nothing (in particular
neither `historyIndex` nor the editor content). -/
theorem undo_save_redo (st : Editor) (s : String) (hw : WellFormed st)
    (hi : 0 < st.historyIndex) (hs : jsIndex st.history (st.historyIndex - 1) ≠ some s) :
    (saveToHistory s (undo st)).history = st.history.take st.historyIndex.toNat ++ [s] ∧
    (saveToHistory s (undo st)).historyIndex = st.historyIndex ∧
    (saveToHistory s (undo st)).historyIndex
        = ((saveToHistory s (undo st)).history.length : Int) - 1 ∧
    jsIndex (saveToHistory s (undo st)).history (saveToHistory s (undo st)).historyIndex
        = some s ∧
    redo (saveToHistory s (undo st)) = saveToHistory s (undo st) ∧
    (redo (saveToHistory s (undo st))).historyIndex = (saveToHistory s (undo st)).historyIndex ∧
    (redo (saveToHistory s (undo st))).innerHTML = (saveToHistory s (undo st)).innerHTML := by
  obtain ⟨h50, h0, hlt⟩ := hw
  have hcu : Consistent (undo st) := undo_consistent st (Or.inr ⟨h50, h0, hlt⟩)
  have hui : (undo st).historyIndex = st.historyIndex - 1 := by
    rw [undo_index, if_pos hi]
  have hne : jsIndex (undo st).history (undo st).historyIndex ≠ some s := by
    rw [undo_history, hui]; exact hs
  have hstep := saveToHistory_of_ne (undo st) s hcu hne
  rw [undo_history, hui] at hstep
  have hnat : (st.historyIndex - 1 + 1).toNat = st.historyIndex.toNat := by
    rw [sub_add_cancel]
  rw [hnat] at hstep
  have hlen : (st.history.take st.historyIndex.toNat ++ [s]).length
      = st.historyIndex.toNat + 1 := by
    simp only [List.length_append, List.length_singleton, List.length_take]
    omega
  rw [if_neg (by rw [hlen]; omega)] at hstep
  have hh : (saveToHistory s (undo st)).history
      = st.history.take st.historyIndex.toNat ++ [s] := by rw [hstep]
  have hx : (saveToHistory s (undo st)).historyIndex = st.historyIndex := by
    rw [hstep]; show st.historyIndex - 1 + 1 = st.historyIndex; omega
  have hend : (saveToHistory s (undo st)).historyIndex
      = ((saveToHistory s (undo st)).history.length : Int) - 1 := by
    rw [hx, hh, hlen]; omega
  have hredo : redo (saveToHistory s (undo st)) = saveToHistory s (undo st) := by
    unfold redo
    rw [if_neg (by omega)]
  refine ⟨hh, hx, hend, (saveToHistory_cursor (undo st) s hcu).2, hredo, ?_, ?_⟩
  · rw [hredo]
  · rw [hredo]

theorem undo_save_redo_witness :
    (saveToHistory "c" (undo (recordAll ["a", "b"] (Editor.initial "")))).history = ["a", "c"] ∧
    redo (saveToHistory "c" (undo (recordAll ["a", "b"] (Editor.initial ""))))
      = saveToHistory "c" (undo (recordAll ["a", "b"] (Editor.initial ""))) :=
  have h := undo_save_redo (recordAll ["a", "b"] (Editor.initial "")) "c"
    (by decide) (by decide) (by decide)
  ⟨h.1.trans (by decide), h.2.2.2.2.1⟩

/-- C4 (cursor bounds): after any finite sequence of `saveToHistory`, `undo`
and `redo` calls from the constructor state, the history has at most 50
entries and, when it is not empty, `0 <= historyIndex <= history.length - 1`. -/
theorem runOps_bounds (ops : List HistoryOp) (content : String) :
    (runOps ops (Editor.initial content)).history.length ≤ 50 ∧
    ((runOps ops (Editor.initial content)).history ≠ [] →
      0 ≤ (runOps ops (Editor.initial content)).historyIndex ∧
      (runOps ops (Editor.initial content)).historyIndex
        ≤ ((runOps ops (Editor.initial content)).history.length : Int) - 1) := by
  rcases runOps_consistent ops _ (initial_consistent content) with ⟨h1, _⟩ | ⟨h1, h2, h3⟩
  · exact ⟨by simp [h1], fun hne => absurd h1 hne⟩
  · exact ⟨h1, fun _ => ⟨h2, by omega⟩⟩

theorem runOps_bounds_witness :
    (runOps [.save "a", .save "b", .undo, .undo, .redo, .save "c"] (Editor.initial "")).history
      ≠ [] ∧
    0 ≤ (runOps [.save "a", .save "b", .undo, .undo, .redo, .save "c"]
      (Editor.initial "")).historyIndex :=
  ⟨by decide,
    ((runOps_bounds [.save "a", .save "b", .undo, .undo, .redo, .save "c"] "").2
      (by decide)).1⟩

/-! ### No two adjacent entries are equal -/

theorem saveToHistory_chain (st : Editor) (s : String) (hc : Consistent st)
    (hch : List.Chain' (fun a b => a ≠ b) st.history) :
    List.Chain' (fun a b => a ≠ b) (saveToHistory s st).history := by
  by_cases heq : jsIndex st.history st.historyIndex = some s
  · rw [saveToHistory_eq_self st s heq]; exact hch
  · have hpush : List.Chain' (fun a b => a ≠ b)
        (st.history.take (st.historyIndex + 1).toNat ++ [s]) := by
      rw [List.chain'_append]
      refine ⟨hch.take _, by simp, ?_⟩
      intro x hx y hy hxy
      simp only [List.head?_cons, Option.mem_def, Option.some.injEq] at hy
      subst hy
      subst hxy
      apply heq
      rw [Option.mem_def, List.getLast?_eq_getElem?, List.length_take] at hx
      rcases hc with ⟨hnil, _⟩ | ⟨_, h0, hlt⟩
      · simp [hnil] at hx
      · have hmin : min (st.historyIndex + 1).toNat st.history.length - 1
            = st.historyIndex.toNat := by omega
        rw [hmin, List.getElem?_take_of_lt (by omega)] at hx
        simp [jsIndex, h0, hx]
    rw [saveToHistory_of_ne st s hc heq]
    split
    · exact hpush.tail
    · exact hpush

theorem apply_chain (op : HistoryOp) (st : Editor) (hc : Consistent st)
    (hch : List.Chain' (fun a b => a ≠ b) st.history) :
    List.Chain' (fun a b => a ≠ b) (op.apply st).history := by
  cases op with
  | save c => exact saveToHistory_chain st c hc hch
  | undo => show List.Chain' _ (undo st).history; rw [undo_history]; exact hch
  | redo => show List.Chain' _ (redo st).history; rw [redo_history]; exact hch

theorem runOps_chain (ops : List HistoryOp) :
    ∀ st : Editor, Consistent st → List.Chain' (fun a b => a ≠ b) st.history →
      List.Chain' (fun a b => a ≠ b) (runOps ops st).history := by
  induction ops with
  | nil => intro st _ hch; exact hch
  | cons op rest ih =>
    intro st hc hch
    exact ih (op.apply st) (apply_consistent op st hc) (apply_chain op st hc hch)

/-- C5 (no adjacent duplicates): after any finite sequence of `saveToHistory`,
`undo` and `redo` calls from the constructor state, `history[k] != history[k+1]`
for every `k` with `k + 1 < history.length`. -/
theorem runOps_no_adjacent_duplicates (ops : List HistoryOp) (content : String) (k : Nat)
    (hk : k + 1 < (runOps ops (Editor.initial content)).history.length) :
    (runOps ops (Editor.initial content)).history[k]
      ≠ (runOps ops (Editor.initial content)).history[k + 1] := by
  have hch := runOps_chain ops (Editor.initial content) (initial_consistent content)
    (by simp [Editor.initial])
  have := List.chain'_iff_get.mp hch k (by omega)
  simpa using this

theorem runOps_no_adjacent_duplicates_witness :
    ∃ h : 0 + 1 < (runOps [.save "a", .save "a", .save "b", .undo, .save "a", .save "b"]
        (Editor.initial "")).history.length,
      (runOps [.save "a", .save "a", .save "b", .undo, .save "a", .save "b"]
        (Editor.initial "")).history[0]
      ≠ (runOps [.save "a", .save "a", .save "b", .undo, .save "a", .save "b"]
        (Editor.initial "")).history[0 + 1] :=
  ⟨by decide, runOps_no_adjacent_duplicates
    [.save "a", .save "a", .save "b", .undo, .save "a", .save "b"] "" 0 (by decide)⟩

/-- C6 (undo): in a consistent state, `undo()` changes nothing when
`historyIndex` is 0 or the history is empty; when `historyIndex = i > 0` it sets
`historyIndex` to `i - 1`, sets the editor content to the entry `history[i-1]`,
leaves the history list unchanged and marks the document dirty. -/
theorem undo_spec (st : Editor) (hc : Consistent st) :
    ((st.historyIndex = 0 ∨ st.history = []) → undo st = st) ∧
    (0 < st.historyIndex →
      (undo st).historyIndex = st.historyIndex - 1 ∧
      jsIndex st.history (st.historyIndex - 1) = some (undo st).innerHTML ∧
      (undo st).history = st.history ∧
      (undo st).isDirty = true) := by
  constructor
  · intro h
    have hle : ¬ st.historyIndex > 0 := by
      rcases h with h | h
      · omega
      · rcases hc with ⟨_, h2⟩ | ⟨_, h2, h3⟩
        · omega
        · simp [h] at h3; omega
    unfold undo
    rw [if_neg hle]
  · intro hpos
    have hlt : st.historyIndex - 1 < (st.history.length : Int) := by
      rcases hc with ⟨_, h2⟩ | ⟨_, _, h3⟩ <;> omega
    obtain ⟨e, he⟩ := jsIndex_of_lt st.history (st.historyIndex - 1) (by omega) hlt
    have hu : undo st = showToast "已撤销" "success"
        (updateAfterHistory { st with historyIndex := st.historyIndex - 1,
                                      innerHTML := jsToString (jsIndex st.history (st.historyIndex - 1)) }) := by
      unfold undo
      rw [if_pos hpos]
    refine ⟨by rw [undo_index, if_pos hpos], ?_, undo_history st, by rw [hu]; rfl⟩
    rw [hu, he]
    rfl

theorem undo_spec_witness :
    (undo (recordAll ["a", "b"] (Editor.initial "b"))).innerHTML = "a" ∧
    undo (recordAll ["a"] (Editor.initial "a")) = recordAll ["a"] (Editor.initial "a") :=
  ⟨Option.some.inj (((undo_spec (recordAll ["a", "b"] (Editor.initial "b")) (by decide)).2
      (by decide)).2.1.symm.trans (by decide)),
   (undo_spec (recordAll ["a"] (Editor.initial "a")) (by decide)).1 (Or.inl (by decide))⟩

/-- C7 (redo): in a state whose cursor is not below the constructor value `-1`,
`redo()` changes nothing when `historyIndex = history.length - 1`; when
`historyIndex = i < history.length - 1` it sets `historyIndex` to `i + 1`, sets
the editor content to the entry `history[i+1]` and leaves the history list
unchanged. -/
theorem redo_spec (st : Editor) (hlo : -1 ≤ st.historyIndex) :
    (st.historyIndex = (st.history.length : Int) - 1 → redo st = st) ∧
    (st.historyIndex < (st.history.length : Int) - 1 →
      (redo st).historyIndex = st.historyIndex + 1 ∧
      jsIndex st.history (st.historyIndex + 1) = some (redo st).innerHTML ∧
      (redo st).history = st.history) := by
  constructor
  · intro h
    unfold redo
    rw [if_neg (by omega)]
  · intro hlt
    obtain ⟨e, he⟩ := jsIndex_of_lt st.history (st.historyIndex + 1) (by omega) (by omega)
    have hr : redo st = showToast "已重做" "success"
        (updateAfterHistory { st with historyIndex := st.historyIndex + 1,
                                      innerHTML := jsToString (jsIndex st.history (st.historyIndex + 1)) }) := by
      unfold redo
      rw [if_pos hlt]
    refine ⟨by rw [redo_index, if_pos hlt], ?_, redo_history st⟩
    rw [hr, he]
    rfl

theorem redo_spec_witness :
    (redo (undo (recordAll ["a", "b"] (Editor.initial "b")))).innerHTML = "b" ∧
    redo (recordAll ["a", "b"] (Editor.initial "b")) = recordAll ["a", "b"] (Editor.initial "b") :=
  ⟨Option.some.inj (((redo_spec (undo (recordAll ["a", "b"] (Editor.initial "b"))) (by decide)).2
      (by decide)).2.1.symm.trans (by decide)),
   (redo_spec (recordAll ["a", "b"] (Editor.initial "b")) (by decide)).1 (by decide)⟩

/-! ### Link validation -/

theorem mem_matchAt_chr (p : Char) (s r : List Char) :
    r ∈ (Re.chr p).matchAt true s ↔
      ((s.take 1).map Char.toUpper = [p.toUpper] ∧ r = s.drop 1) := by
  cases s with
  | nil => simp [Re.matchAt]
  | cons c cs =>
    by_cases hc : c.toUpper = p.toUpper <;> simp [Re.matchAt, canonicalize, hc]

theorem mem_matchAt_lit (w : List Char) : ∀ s r : List Char,
    r ∈ (Re.lit w).matchAt true s ↔
      ((s.take w.length).map Char.toUpper = w.map Char.toUpper ∧ r = s.drop w.length) := by
  induction w with
  | nil => intro s r; simp [Re.lit, Re.matchAt]
  | cons p w ih =>
    intro s r
    have hl : Re.lit (p :: w) = Re.seq (Re.chr p) (Re.lit w) := rfl
    rw [hl]
    simp only [Re.matchAt, List.mem_flatMap, mem_matchAt_chr, ih]
    cases s with
    | nil => simp
    | cons c cs =>
      constructor
      · rintro ⟨m, ⟨h1, rfl⟩, h2, rfl⟩
        simp only [List.take_succ_cons, List.take_zero, List.map_cons, List.map_nil,
          List.cons.injEq, and_true] at h1
        simp only [List.length_cons, List.take_succ_cons, List.map_cons, h1, h2,
          List.drop_succ_cons, and_self]
      · rintro ⟨h1, rfl⟩
        simp only [List.length_cons, List.take_succ_cons, List.map_cons, List.cons.injEq] at h1
        refine ⟨cs, ⟨?_, ?_⟩, h1.2, ?_⟩
        · simp only [List.take_succ_cons, List.take_zero, List.map_cons, List.map_nil, h1.1]
        · simp only [List.drop_succ_cons, List.drop_zero]
        · simp only [List.length_cons, List.drop_succ_cons]

theorem begins_append (a b : List Char) : ∀ s : List Char,
    ((s.take (a ++ b).length).map Char.toUpper = (a ++ b).map Char.toUpper) ↔
      ((s.take a.length).map Char.toUpper = a.map Char.toUpper ∧
        ((s.drop a.length).take b.length).map Char.toUpper = b.map Char.toUpper) := by
  induction a with
  | nil => intro s; simp
  | cons p a ih =>
    intro s
    cases s with
    | nil => simp
    | cons c cs =>
      have := ih cs
      simp only [List.cons_append, List.length_cons, List.take_succ_cons, List.map_cons,
        List.cons.injEq, List.drop_succ_cons, and_assoc]
      rw [this]

/-- A pattern of the shape `(a c? | b) d` matches at the start exactly when the
input begins, ignoring case, with `a d`, with `a c d` or with `b d`. -/
theorem scheme_pattern_matches (a b d : List Char) (c : Char) (s : List Char) :
    (Re.seq (Re.alt (Re.seq (Re.lit a) (Re.opt (Re.chr c))) (Re.lit b)) (Re.lit d)).matchAt
        true s ≠ [] ↔
      ((s.take (a ++ d).length).map Char.toUpper = (a ++ d).map Char.toUpper ∨
       (s.take (a ++ c :: d).length).map Char.toUpper = (a ++ c :: d).map Char.toUpper ∨
       (s.take (b ++ d).length).map Char.toUpper = (b ++ d).map Char.toUpper) := by
  have hne : ∀ l : List (List Char), l ≠ [] ↔ ∃ r, r ∈ l := by
    intro l
    cases l with
    | nil => simp
    | cons x t => simp
  have hcd : c :: d = [c] ++ d := rfl
  rw [begins_append a d, hcd, begins_append a ([c] ++ d), begins_append b d,
    begins_append [c] d (s.drop a.length), hne]
  simp only [Re.matchAt, List.mem_flatMap, List.mem_append, mem_matchAt_lit, mem_matchAt_chr,
    List.mem_singleton, List.length_singleton, List.map_cons, List.map_nil]
  constructor
  · rintro ⟨r, m, (⟨m1, ⟨ha, rfl⟩, (⟨hc, rfl⟩ | rfl)⟩ | ⟨hb, rfl⟩), hd, rfl⟩
    · exact Or.inr (Or.inl ⟨ha, hc, hd⟩)
    · exact Or.inl ⟨ha, hd⟩
    · exact Or.inr (Or.inr ⟨hb, hd⟩)
  · rintro (⟨ha, hd⟩ | ⟨ha, hc, hd⟩ | ⟨hb, hd⟩)
    · exact ⟨_, _, Or.inl ⟨_, ⟨ha, rfl⟩, Or.inr rfl⟩, hd, rfl⟩
    · exact ⟨_, _, Or.inl ⟨_, ⟨ha, rfl⟩, Or.inl ⟨hc, rfl⟩⟩, hd, rfl⟩
    · exact ⟨_, _, Or.inr ⟨hb, rfl⟩, hd, rfl⟩

/-- The pattern of line 399 matches exactly the strings that begin, ignoring
case, with one of the three schemes. -/
theorem linkUrlPattern_matches (url : String) :
    linkUrlPattern.matchesStart true url = true ↔
      (beginsWithIgnoringCase "http://" url ∨ beginsWithIgnoringCase "https://" url ∨
        beginsWithIgnoringCase "ftp://" url) := by
  have h := scheme_pattern_matches "http".data "ftp".data "://".data 's' url.data
  unfold beginsWithIgnoringCase
  have d1 : "http://".data = "http".data ++ "://".data := rfl
  have d2 : "https://".data = "http".data ++ 's' :: "://".data := rfl
  have d4 : "ftp://".data = "ftp".data ++ "://".data := rfl
  rw [d1, d2, d4, ← h]
  simp [Re.matchesStart, linkUrlPattern]

theorem saveToHistory_frame (c : String) (st : Editor) :
    (saveToHistory c st).innerHTML = st.innerHTML ∧ (saveToHistory c st).toasts = st.toasts ∧
    (saveToHistory c st).commands = st.commands ∧ (saveToHistory c st).isDirty = st.isDirty ∧
    (saveToHistory c st).selection = st.selection := by
  unfold saveToHistory
  split
  · simp
  · dsimp only
    split <;> (split <;> simp)

theorem restoreSelection_frame (host : Host) (st : Editor) :
    (restoreSelection host st).innerHTML = st.innerHTML ∧
    (restoreSelection host st).history = st.history ∧
    (restoreSelection host st).historyIndex = st.historyIndex ∧
    (restoreSelection host st).toasts = st.toasts ∧
    (restoreSelection host st).commands = st.commands ∧
    (restoreSelection host st).isDirty = st.isDirty := by
  unfold restoreSelection
  split <;> simp

/-- C8 (link validation): `confirmLink` passes the guard of line 399 exactly
when the URL begins, ignoring case, with `http://`, `https://` or `ftp://`;
for every other URL it shows the warning toast and leaves the editor content,
the history list, `historyIndex` and the command log unchanged, and for an
accepted URL it ends with the success toast. -/
theorem confirmLink_validation (host : Host) (url text : String) (newTab : Bool) (st : Editor) :
    (linkUrlRejected url = false ↔
      (beginsWithIgnoringCase "http://" url ∨ beginsWithIgnoringCase "https://" url ∨
        beginsWithIgnoringCase "ftp://" url)) ∧
    (linkUrlRejected url = true →
      (confirmLink host url text newTab st).toasts
          = st.toasts ++ [⟨"请输入有效的链接地址", "warning"⟩] ∧
      (confirmLink host url text newTab st).innerHTML = st.innerHTML ∧
      (confirmLink host url text newTab st).history = st.history ∧
      (confirmLink host url text newTab st).historyIndex = st.historyIndex ∧
      (confirmLink host url text newTab st).commands = st.commands) ∧
    (linkUrlRejected url = false →
      (confirmLink host url text newTab st).toasts
          = st.toasts ++ [⟨"链接已更新", "success"⟩]) := by
  refine ⟨?_, ?_, ?_⟩
  · rw [← linkUrlPattern_matches]
    unfold linkUrlRejected
    by_cases he : url = ""
    · subst he
      simp [Re.matchesStart, linkUrlPattern, Re.matchAt, Re.lit]
    · simp [he]
  · intro hr
    obtain ⟨h1, h2, h3, h4, h5, _⟩ := restoreSelection_frame host st
    have hc : confirmLink host url text newTab st
        = showToast "请输入有效的链接地址" "warning" (restoreSelection host st) := by
      unfold confirmLink
      simp only [hr, if_true]
    rw [hc]
    simp only [showToast, h1, h2, h3, h4, h5, and_self]
  · intro hr
    obtain ⟨_, _, _, h4, _, _⟩ := restoreSelection_frame host st
    unfold confirmLink
    simp only [hr, Bool.false_eq_true, if_false]
    rw [(saveToHistory_frame _ _).2.1]
    split
    · simp only [showToast, h4]
    · simp only [showToast, execInsertHTML, h4]

set_option maxRecDepth 100000 in
theorem confirmLink_validation_witness :
    linkUrlRejected "javascript:alert(1)" = true ∧ linkUrlRejected "" = true ∧
    linkUrlRejected "https://example.com" = false ∧
    (confirmLink appendingHost "javascript:alert(1)" "x" true
        (recordAll ["<p>a</p>"] (Editor.initial "<p>a</p>"))).innerHTML = "<p>a</p>" ∧
    (confirmLink appendingHost "javascript:alert(1)" "x" true
        (recordAll ["<p>a</p>"] (Editor.initial "<p>a</p>"))).history = ["<p>a</p>"] ∧
    (confirmLink appendingHost "https://example.com" "x" true
        (recordAll ["<p>a</p>"] (Editor.initial "<p>a</p>"))).toasts
      = [⟨"链接已更新", "success"⟩] :=
  have h1 := (confirmLink_validation appendingHost "javascript:alert(1)" "x" true
    (recordAll ["<p>a</p>"] (Editor.initial "<p>a</p>"))).2.1 (by decide)
  have h2 := (confirmLink_validation appendingHost "https://example.com" "x" true
    (recordAll ["<p>a</p>"] (Editor.initial "<p>a</p>"))).2.2 (by decide)
  ⟨by decide, by decide, by decide, h1.2.1.trans (by decide), h1.2.2.1.trans (by decide),
    h2.trans (by decide)⟩

/-! ### Link construction -/

theorem run_valueDq (name : List Char) (attrs : List (String × String)) (an : List Char)
    (out : List Token) (rest : List Char) :
    ∀ (u v : List Char), (∀ c ∈ u, c ≠ '"' ∧ c ≠ '&') →
      (Scan.valueDq name attrs an v).run out (u ++ rest)
        = (Scan.valueDq name attrs an (u.reverse ++ v)).run out rest := by
  intro u
  induction u with
  | nil => intro v _; rfl
  | cons c u ih =>
    intro v hu
    have hc := hu c (List.mem_cons_self c u)
    have hstep : (Scan.valueDq name attrs an v).step c
        = some ([], Scan.valueDq name attrs an (c :: v)) := by
      simp [Scan.step, hc.1, hc.2]
    have := ih (c :: v) (fun x hx => hu x (List.mem_cons_of_mem c hx))
    simp only [List.cons_append, Scan.run, hstep, List.reverse_nil, List.nil_append,
      List.reverse_cons, List.append_assoc, List.singleton_append]
    exact this

theorem run_data (out : List Token) (rest : List Char) :
    ∀ (t acc : List Char), (∀ c ∈ t, c ≠ '<' ∧ c ≠ '&') →
      (Scan.data acc).run out (t ++ rest) = (Scan.data (t.reverse ++ acc)).run out rest := by
  intro t
  induction t with
  | nil => intro acc _; rfl
  | cons c t ih =>
    intro acc ht
    have hc := ht c (List.mem_cons_self c t)
    have hstep : (Scan.data acc).step c = some ([], Scan.data (c :: acc)) := by
      simp [Scan.step, hc.1, hc.2]
    have := ih (c :: acc) (fun x hx => ht x (List.mem_cons_of_mem c hx))
    simp only [List.cons_append, Scan.run, hstep, List.reverse_nil, List.nil_append,
      List.reverse_cons, List.append_assoc, List.singleton_append]
    exact this

theorem run_data_close_anchor (acc : List Char) (out : List Token) (hacc : acc ≠ []) :
    (Scan.data acc).run out "</a>".data
      = some ((Token.endTag "a" :: Token.text (String.mk acc.reverse) :: out).reverse) := by
  have h : (Scan.data acc).run out "</a>".data
      = some ((flushText [] ++ (Token.endTag "a" :: ((flushText acc).reverse ++ out))).reverse) :=
    rfl
  rw [h]
  simp [flushText, hacc]

/-- The tokens of the template of line 418 when the URL holds no double quote
or ampersand and the body is a non-empty text without `<` or ampersand. -/
theorem tokens_linkMarkup (url body : String) (newTab : Bool)
    (hu : ∀ c ∈ url.data, c ≠ '"' ∧ c ≠ '&')
    (hb : ∀ c ∈ body.data, c ≠ '<' ∧ c ≠ '&') (hne : body ≠ "") :
    tokens (linkMarkup url body newTab) =
      some [Token.startTag "a"
              (("href", url) :: (if newTab then [("target", "_blank")] else [])),
            Token.text body, Token.endTag "a"] := by
  have hbd : body.data ≠ [] := by
    intro h
    apply hne
    cases body
    simp_all
  unfold tokens linkMarkup
  simp only [String.data_append]
  have h1 : ∀ rest : List Char, (Scan.data []).run [] ("<a href=\"".data ++ rest)
      = (Scan.valueDq ['a'] [] ['f', 'e', 'r', 'h'] []).run [] rest := fun _ => rfl
  simp only [List.append_assoc]
  rw [h1, run_valueDq _ _ _ _ _ url.data [] hu]
  cases newTab with
  | true =>
    have h2 : ∀ (v rest : List Char), (Scan.valueDq ['a'] [] ['f', 'e', 'r', 'h'] v).run []
        ("\" ".data ++ ("target=\"_blank\"".data ++ (">".data ++ rest)))
        = (Scan.data []).run
            [Token.startTag "a" [("href", String.mk v.reverse), ("target", "_blank")]] rest :=
      fun _ _ => rfl
    simp only [if_true]
    rw [h2, run_data _ _ body.data [] hb, run_data_close_anchor _ _ (by simpa using hbd)]
    simp
  | false =>
    have h2 : ∀ (v rest : List Char), (Scan.valueDq ['a'] [] ['f', 'e', 'r', 'h'] v).run []
        ("\" ".data ++ ("".data ++ (">".data ++ rest)))
        = (Scan.data []).run [Token.startTag "a" [("href", String.mk v.reverse)]] rest :=
      fun _ _ => rfl
    simp only [Bool.false_eq_true, if_false]
    rw [h2, run_data _ _ body.data [] hb, run_data_close_anchor _ _ (by simpa using hbd)]
    simp

/-- The insertion branch on plain input: for an accepted URL without double
quote or ampersand and a body (the link text, or the URL when the text is
empty) without `<` or ampersand, when the restored selection is not inside an
anchor, `confirmLink` hands to `insertHTML` a fragment that reads as one anchor
element whose `href` value is exactly the URL, whose body is that text, and
which has `target="_blank"` exactly when the new-tab option is checked. -/
theorem confirmLink_fragment (host : Host) (url text : String) (newTab : Bool) (st : Editor)
    (hacc : linkUrlRejected url = false)
    (hsel : host.inAnchor (restoreSelection host st).selection
      (restoreSelection host st).innerHTML = false)
    (hu : ∀ c ∈ url.data, c ≠ '"' ∧ c ≠ '&')
    (hb : ∀ c ∈ (if text = "" then url else text).data, c ≠ '<' ∧ c ≠ '&') :
    (confirmLink host url text newTab st).commands
      = st.commands ++ [("insertHTML", linkMarkup url (if text = "" then url else text) newTab)] ∧
    IsLinkAnchor (linkMarkup url (if text = "" then url else text) newTab) url
      (if text = "" then url else text) newTab := by
  have hurl : url ≠ "" := by
    intro h
    subst h
    simp [linkUrlRejected] at hacc
  have hbody : (if text = "" then url else text) ≠ "" := by
    split
    · exact hurl
    · assumption
  constructor
  · unfold confirmLink
    simp only [hacc, Bool.false_eq_true, if_false, hsel]
    rw [(saveToHistory_frame _ _).2.2.1]
    simp only [showToast, execInsertHTML, (restoreSelection_frame host st).2.2.2.2.1]
  · unfold IsLinkAnchor readAnchor
    rw [tokens_linkMarkup url _ newTab hu hb hbody]
    cases newTab <;> simp [List.lookup]

set_option maxRecDepth 100000 in
theorem confirmLink_fragment_witness :
    linkUrlRejected "https://example.com" = false ∧
    (confirmLink appendingHost "https://example.com" "" true (Editor.initial "")).commands
      = [("insertHTML", "<a href=\"https://example.com\" target=\"_blank\">https://example.com</a>")] ∧
    IsLinkAnchor (linkMarkup "https://example.com" "https://example.com" true)
      "https://example.com" "https://example.com" true :=
  have h := confirmLink_fragment appendingHost "https://example.com" "" true (Editor.initial "")
    (by decide) (by decide) (by decide) (by decide)
  ⟨by decide, h.1.trans (by decide), h.2⟩

/-- The branch of lines 408-415: when the restored selection is inside an
anchor, an accepted URL, the body and the new-tab option reach the anchor as
they are, through its properties, and nothing is handed to `insertHTML`. -/
theorem confirmLink_edits_anchor (host : Host) (url text : String) (newTab : Bool) (st : Editor)
    (hacc : linkUrlRejected url = false)
    (hsel : host.inAnchor (restoreSelection host st).selection
      (restoreSelection host st).innerHTML = true) :
    (confirmLink host url text newTab st).innerHTML
      = host.editAnchor url (if text = "" then url else text) newTab
          (restoreSelection host st).selection st.innerHTML ∧
    (confirmLink host url text newTab st).commands = st.commands := by
  unfold confirmLink
  simp only [hacc, Bool.false_eq_true, if_false, hsel, if_true]
  rw [(saveToHistory_frame _ _).1, (saveToHistory_frame _ _).2.2.1]
  simp only [showToast, (restoreSelection_frame host st).1,
    (restoreSelection_frame host st).2.2.2.2.1, and_self]

set_option maxRecDepth 100000 in
/-- C9 (link construction) fails on the insertion branch for a URL with a
double quote: `https://example.com/" target="_blank` passes the guard of line
399, and with the link text `x` and the new-tab option unchecked the fragment
handed to `insertHTML` is `<a href="https://example.com/" target="_blank" >x</a>`:
its `href` value is `https://example.com/`, not the URL, and it carries
`target="_blank"` although the option is unchecked. -/
theorem confirmLink_quote_in_url :
    linkUrlRejected "https://example.com/\" target=\"_blank" = false ∧
    appendingHost.inAnchor (restoreSelection appendingHost (Editor.initial "")).selection
      (restoreSelection appendingHost (Editor.initial "")).innerHTML = false ∧
    (confirmLink appendingHost "https://example.com/\" target=\"_blank" "x" false
        (Editor.initial "")).commands
      = [("insertHTML", "<a href=\"https://example.com/\" target=\"_blank\" >x</a>")] ∧
    readAnchor "<a href=\"https://example.com/\" target=\"_blank\" >x</a>"
      = some ([("href", "https://example.com/"), ("target", "_blank")], "x") ∧
    "https://example.com/" ≠ "https://example.com/\" target=\"_blank" ∧
    ¬ IsLinkAnchor "<a href=\"https://example.com/\" target=\"_blank\" >x</a>"
      "https://example.com/\" target=\"_blank" "x" false := by
  decide

/-! ### Table generation -/

theorem foldl_const_data (c : String) : ∀ (n : Nat) (h : String),
    ((List.range n).foldl (fun html _ => html ++ c) h).data
      = h.data ++ (List.replicate n c.data).flatten := by
  intro n
  induction n with
  | zero => intro h; simp
  | succ n ih =>
    intro h
    rw [List.range_succ, List.foldl_append, List.replicate_succ', List.flatten_append]
    simp only [List.foldl_cons, List.foldl_nil, String.data_append, ih, List.flatten_cons,
      List.flatten_nil, List.append_nil, List.append_assoc]

/-- The characters one pass of the outer loop appends for row `i`. -/
theorem foldl_rows_data (cols : Nat) : ∀ (n : Nat) (h : String),
    ((List.range n).foldl (fun html i =>
        (List.range cols).foldl (fun html _ => html ++ cellMarkup i) (html ++ "<tr>") ++ "</tr>")
      h).data
      = h.data ++ ((List.range n).map (fun i =>
          "<tr>".data ++ ((List.replicate cols (cellMarkup i).data).flatten ++ "</tr>".data))).flatten := by
  intro n
  induction n with
  | zero => intro h; simp
  | succ n ih =>
    intro h
    rw [List.range_succ, List.foldl_append, List.map_append, List.flatten_append]
    simp only [List.foldl_cons, List.foldl_nil, String.data_append, ih, foldl_const_data,
      List.map_cons, List.map_nil, List.flatten_cons, List.flatten_nil, List.append_nil,
      List.append_assoc]

theorem tableMarkup_data (rows cols : Nat) :
    (tableMarkup (rows + 1) cols).data =
      "<table style=\"width: 100%; border-collapse: collapse;\"><tbody>".data ++
      (("<tr>".data ++ ((List.replicate cols (cellMarkup 0).data).flatten ++ "</tr>".data)) ++
       ((List.replicate rows
          ("<tr>".data ++ ((List.replicate cols (cellMarkup 1).data).flatten ++ "</tr>".data))).flatten ++
        "</tbody></table><p><br></p>".data)) := by
  unfold tableMarkup
  simp only [String.data_append, foldl_rows_data]
  rw [List.range_succ_eq_map, List.map_cons, List.map_map, List.flatten_cons]
  have hconst : (List.range rows).map
      ((fun i => "<tr>".data ++ ((List.replicate cols (cellMarkup i).data).flatten ++ "</tr>".data))
        ∘ Nat.succ)
      = List.replicate rows
          ("<tr>".data ++ ((List.replicate cols (cellMarkup 1).data).flatten ++ "</tr>".data)) := by
    have hcell : ∀ i : Nat, cellMarkup (i + 1) = cellMarkup 1 := by
      intro i; simp [cellMarkup]
    rw [List.eq_replicate_iff]
    refine ⟨by simp, ?_⟩
    intro b hb
    obtain ⟨i, _, rfl⟩ := List.mem_map.mp hb
    simp only [Function.comp, Nat.succ_eq_add_one, hcell]
  rw [hconst]
  simp only [List.append_assoc]

theorem scanOK_append {a b : List Char} {ta tb : List Token}
    (ha : ScanOK a ta) (hb : ScanOK b tb) : ScanOK (a ++ b) (ta ++ tb) := by
  intro out rest
  rw [List.append_assoc, ha, hb, List.reverse_append, List.append_assoc]

theorem scanOK_replicate {a : List Char} {ta : List Token} (ha : ScanOK a ta) :
    ∀ n : Nat, ScanOK (List.replicate n a).flatten (List.replicate n ta).flatten := by
  intro n
  induction n with
  | zero => intro out rest; rfl
  | succ n ih =>
    rw [List.replicate_succ, List.flatten_cons, List.replicate_succ, List.flatten_cons]
    exact scanOK_append ha ih

theorem scanOK_tokens {s : String} {toks : List Token} (h : ScanOK s.data toks) :
    tokens s = some toks := by
  have := h [] []
  simp only [List.append_nil] at this
  unfold tokens
  rw [this]
  simp [Scan.run, flushText]

theorem scanOK_tr : ScanOK "<tr>".data [Token.startTag "tr" []] := fun _ _ => rfl

theorem scanOK_tr_close : ScanOK "</tr>".data [Token.endTag "tr"] := fun _ _ => rfl

set_option maxRecDepth 100000 in
theorem scanOK_table_open :
    ScanOK "<table style=\"width: 100%; border-collapse: collapse;\"><tbody>".data
      [Token.startTag "table" [("style", "width: 100%; border-collapse: collapse;")],
       Token.startTag "tbody" []] := fun _ _ => rfl

set_option maxRecDepth 100000 in
theorem scanOK_table_close :
    ScanOK "</tbody></table><p><br></p>".data
      ([Token.endTag "tbody", Token.endTag "table"] ++ emptyLine) := fun _ _ => rfl

set_option maxRecDepth 100000 in
theorem scanOK_header_cell :
    ScanOK (cellMarkup 0).data
      ([Token.startTag "th" [("style", "border: 1px solid #dee2e6; padding: 8px; min-width: 50px;background-color: #f8f9fa; font-weight: 600; text-align: center;")]]
        ++ emptyLine ++ [Token.endTag "th"]) := fun _ _ => rfl

set_option maxRecDepth 100000 in
theorem scanOK_body_cell :
    ScanOK (cellMarkup 1).data
      ([Token.startTag "td" [("style", "border: 1px solid #dee2e6; padding: 8px; min-width: 50px;")]]
        ++ emptyLine ++ [Token.endTag "td"]) := fun _ _ => rfl

theorem readOK_append {names : List String} {a b : List Token}
    {ea eb : List (String × List Token)}
    (ha : ReadOK names a ea) (hb : ReadOK names b eb) : ReadOK names (a ++ b) (ea ++ eb) := by
  intro rest
  rw [List.append_assoc, ha, hb, List.append_assoc]

theorem readOK_replicate {names : List String} {a : List Token}
    {ea : List (String × List Token)} (ha : ReadOK names a ea) :
    ∀ n : Nat, ReadOK names (List.replicate n a).flatten (List.replicate n ea).flatten := by
  intro n
  induction n with
  | zero => intro rest; rfl
  | succ n ih =>
    rw [List.replicate_succ, List.flatten_cons, List.replicate_succ, List.flatten_cons]
    exact readOK_append ha ih

theorem readOK_finish {names : List String} {a : List Token}
    {ea : List (String × List Token)} (ha : ReadOK names a ea) :
    elementsOf names none a = ea := by
  have := ha []
  simpa [elementsOf] using this

theorem elementsOf_some_cons (names : List String) (n : String) (acc : List Token)
    (tok : Token) (ts : List Token) :
    elementsOf names (some (n, acc)) (tok :: ts)
      = if tok = Token.endTag n then (n, acc.reverse) :: elementsOf names none ts
        else elementsOf names (some (n, tok :: acc)) ts := by
  rw [elementsOf]

theorem elementsOf_none_start (names : List String) (n : String)
    (attrs : List (String × String)) (ts : List Token) :
    elementsOf names none (Token.startTag n attrs :: ts)
      = if n ∈ names then elementsOf names (some (n, [])) ts else elementsOf names none ts := by
  rw [elementsOf]

/-- Inside an element the reader collects every token up to the end tag of
that element. -/
theorem elementsOf_inside (names : List String) (n : String) (rest : List Token) :
    ∀ (xs acc : List Token), Token.endTag n ∉ xs →
      elementsOf names (some (n, acc)) (xs ++ Token.endTag n :: rest)
        = (n, acc.reverse ++ xs) :: elementsOf names none rest := by
  intro xs
  induction xs with
  | nil => intro acc _; simp [elementsOf]
  | cons x xs ih =>
    intro acc hx
    have hne : x ≠ Token.endTag n := fun h => hx (h ▸ List.mem_cons_self _ _)
    have hrest : Token.endTag n ∉ xs := fun h => hx (List.mem_cons_of_mem _ h)
    rw [List.cons_append, elementsOf_some_cons, if_neg hne, ih (x :: acc) hrest]
    simp

theorem readOK_element (names : List String) (n : String) (attrs : List (String × String))
    (xs : List Token) (hn : n ∈ names) (hx : Token.endTag n ∉ xs) :
    ReadOK names ([Token.startTag n attrs] ++ xs ++ [Token.endTag n]) [(n, xs)] := by
  intro rest
  rw [List.singleton_append, List.cons_append, List.cons_append, elementsOf_none_start,
    if_pos hn, List.append_assoc, List.singleton_append,
    elementsOf_inside names n rest xs [] hx]
  simp

theorem readOK_skip (names : List String) (seg : List Token)
    (h : ∀ tok ∈ seg, ∀ n attrs, tok = Token.startTag n attrs → n ∉ names) :
    ReadOK names seg [] := by
  induction seg with
  | nil => intro rest; rfl
  | cons x xs ih =>
    intro rest
    have hxs := ih (fun tok ht => h tok (List.mem_cons_of_mem _ ht))
    cases x with
    | startTag n attrs =>
      have := h _ (List.mem_cons_self _ _) n attrs rfl
      rw [List.cons_append, elementsOf_none_start, if_neg this]
      exact hxs rest
    | endTag n =>
      rw [List.cons_append, elementsOf]
      · exact hxs rest
      · intro _ _ hh; cases hh
    | text d =>
      rw [List.cons_append, elementsOf]
      · exact hxs rest
      · intro _ _ hh; cases hh

/-- The cells of a row of `cols` cells of kind `kind`, each holding the empty
line. -/
theorem read_cells (kind : String) (attrs : List (String × String)) (cols : Nat)
    (hk : kind ∈ ["th", "td"]) (he : Token.endTag kind ∉ emptyLine) :
    elementsOf ["th", "td"] none
        (List.replicate cols ([Token.startTag kind attrs] ++ emptyLine ++ [Token.endTag kind])).flatten
      = List.replicate cols (kind, emptyLine) := by
  have h := readOK_finish (readOK_replicate (readOK_element ["th", "td"] kind attrs emptyLine hk he) cols)
  rw [h]
  simp

theorem endTag_tr_not_mem_cells (kind : String) (attrs : List (String × String)) (cols : Nat)
    (hk : kind ≠ "tr") :
    Token.endTag "tr" ∉
      (List.replicate cols ([Token.startTag kind attrs] ++ emptyLine ++ [Token.endTag kind])).flatten := by
  intro h
  obtain ⟨l, hl, hin⟩ := List.mem_flatten.mp h
  obtain ⟨_, rfl⟩ := List.mem_replicate.mp hl
  simp [emptyLine] at hin
  exact hk hin.symm

/-- The tokens of a row of `cols` cells. -/
theorem scanOK_row {cell : List Char} {cellToks : List Token} (h : ScanOK cell cellToks)
    (cols : Nat) :
    ScanOK ("<tr>".data ++ ((List.replicate cols cell).flatten ++ "</tr>".data))
      ([Token.startTag "tr" []] ++ (List.replicate cols cellToks).flatten ++ [Token.endTag "tr"]) := by
  have := scanOK_append scanOK_tr (scanOK_append (scanOK_replicate h cols) scanOK_tr_close)
  simpa [List.append_assoc] using this

theorem tokens_tableMarkup (rows cols : Nat) :
    tokens (tableMarkup (rows + 1) cols) = some
      ([Token.startTag "table" [("style", "width: 100%; border-collapse: collapse;")],
        Token.startTag "tbody" []] ++
       (([Token.startTag "tr" []] ++ (List.replicate cols
          ([Token.startTag "th" [("style", "border: 1px solid #dee2e6; padding: 8px; min-width: 50px;background-color: #f8f9fa; font-weight: 600; text-align: center;")]]
            ++ emptyLine ++ [Token.endTag "th"])).flatten ++ [Token.endTag "tr"]) ++
        ((List.replicate rows
          ([Token.startTag "tr" []] ++ (List.replicate cols
            ([Token.startTag "td" [("style", "border: 1px solid #dee2e6; padding: 8px; min-width: 50px;")]]
              ++ emptyLine ++ [Token.endTag "td"])).flatten ++ [Token.endTag "tr"])).flatten ++
         ([Token.endTag "tbody", Token.endTag "table"] ++ emptyLine)))) := by
  apply scanOK_tokens
  rw [tableMarkup_data]
  exact scanOK_append scanOK_table_open
    (scanOK_append (scanOK_row scanOK_header_cell cols)
      (scanOK_append (scanOK_replicate (scanOK_row scanOK_body_cell cols) rows)
        scanOK_table_close))

/-- C10 (table generation): for `rows >= 1` the markup `insertTable` hands to
`insertHTML` reads as exactly `rows` rows: the first row is `cols` header cells
(`th`) and nothing else, each of the other `rows - 1` rows is `cols` body cells
(`td`) and nothing else, and the content of every cell is the empty line
`<p><br></p>`.  This holds for every `cols`, in particular for `cols >= 1`. -/
theorem insertTable_markup (host : Host) (rows cols : Nat) (st : Editor) (hr : 1 ≤ rows) :
    (insertTable host rows cols st).commands
      = st.commands ++ [("insertHTML", tableMarkup rows cols)] ∧
    readTable (tableMarkup rows cols) = some
      (List.replicate cols ("th", emptyLine) ::
        List.replicate (rows - 1) (List.replicate cols ("td", emptyLine))) ∧
    (readTable (tableMarkup rows cols)).map List.length = some rows ∧
    tokens "<p><br></p>" = some emptyLine := by
  obtain ⟨r, rfl⟩ : ∃ r, rows = r + 1 := ⟨rows - 1, by omega⟩
  have hread : readTable (tableMarkup (r + 1) cols) = some
      (List.replicate cols ("th", emptyLine) ::
        List.replicate (r + 1 - 1) (List.replicate cols ("td", emptyLine))) := by
    unfold readTable
    rw [tokens_tableMarkup]
    have hopen : ReadOK ["tr"]
        [Token.startTag "table" [("style", "width: 100%; border-collapse: collapse;")],
          Token.startTag "tbody" []] [] :=
      readOK_skip _ _ (by
        intro tok ht n attrs he
        simp only [List.mem_cons, List.mem_singleton, List.not_mem_nil, or_false] at ht
        rcases ht with rfl | rfl <;> cases he <;> decide)
    have hclose : ReadOK ["tr"] ([Token.endTag "tbody", Token.endTag "table"] ++ emptyLine) [] :=
      readOK_skip _ _ (by
        intro tok ht n attrs he
        simp only [emptyLine, List.cons_append, List.nil_append, List.mem_cons,
          List.mem_singleton, List.not_mem_nil, or_false] at ht
        rcases ht with rfl | rfl | rfl | rfl | rfl <;> cases he <;> decide)
    have hrow : ∀ (kind : String) (attrs : List (String × String)), kind ≠ "tr" →
        ReadOK ["tr"] ([Token.startTag "tr" []] ++ (List.replicate cols
          ([Token.startTag kind attrs] ++ emptyLine ++ [Token.endTag kind])).flatten
            ++ [Token.endTag "tr"])
          [("tr", (List.replicate cols
            ([Token.startTag kind attrs] ++ emptyLine ++ [Token.endTag kind])).flatten)] :=
      fun kind attrs hk => readOK_element ["tr"] "tr" [] _ (by decide)
        (endTag_tr_not_mem_cells kind attrs cols hk)
    have hall := readOK_finish (readOK_append hopen
      (readOK_append (hrow "th" [("style", "border: 1px solid #dee2e6; padding: 8px; min-width: 50px;background-color: #f8f9fa; font-weight: 600; text-align: center;")] (by decide))
        (readOK_append (readOK_replicate (hrow "td" [("style", "border: 1px solid #dee2e6; padding: 8px; min-width: 50px;")] (by decide)) r) hclose)))
    have hth := read_cells "th" [("style", "border: 1px solid #dee2e6; padding: 8px; min-width: 50px;background-color: #f8f9fa; font-weight: 600; text-align: center;")] cols
      (by decide) (by decide)
    have htd := read_cells "td" [("style", "border: 1px solid #dee2e6; padding: 8px; min-width: 50px;")] cols
      (by decide) (by decide)
    rw [Option.map_some', hall]
    simp only [List.nil_append, List.append_nil, List.map_append, List.map_cons, List.map_nil,
      List.flatten_replicate_singleton, List.map_replicate, Nat.add_sub_cancel, hth, htd]
    rfl
  refine ⟨?_, hread, ?_, by rfl⟩
  · unfold insertTable
    rw [(saveToHistory_frame _ _).2.2.1]
    simp only [showToast, execInsertHTML, (restoreSelection_frame host st).2.2.2.2.1]
  · rw [hread]
    simp

set_option maxRecDepth 100000 in
theorem insertTable_markup_witness :
    readTable (tableMarkup 3 2) = some
      [[("th", emptyLine), ("th", emptyLine)],
       [("td", emptyLine), ("td", emptyLine)],
       [("td", emptyLine), ("td", emptyLine)]] ∧
    (insertTable appendingHost 3 2 (Editor.initial "")).commands
      = [("insertHTML", tableMarkup 3 2)] :=
  have h := insertTable_markup appendingHost 3 2 (Editor.initial "") (by decide)
  ⟨h.2.1, h.1⟩

/-! ### Selection restore and undo/redo round trip -/

theorem undo_innerHTML (st : Editor) (h : 0 < st.historyIndex) :
    (undo st).innerHTML = jsToString (jsIndex st.history (st.historyIndex - 1)) := by
  unfold undo
  rw [if_pos h]
  rfl

theorem redo_innerHTML (st : Editor) (h : st.historyIndex < (st.history.length : Int) - 1) :
    (redo st).innerHTML = jsToString (jsIndex st.history (st.historyIndex + 1)) := by
  unfold redo
  rw [if_pos h]
  rfl

/-- C17 (selection restore default): with no stored mark, `restoreSelection()`
sets the live selection to one collapsed range whose two boundary points are
the end of the editor content, `(editor, childCount)`, which is not the start
`(editor, 0)` when the editor has content; with a stored mark the live
selection is exactly that range; in both cases the editor is focused.  No mark
is stored in the constructor state or after `saveSelection()` on an empty
selection. -/
theorem restoreSelection_default (host : Host) (st : Editor) :
    (st.savedRange = none →
      (restoreSelection host st).selection
          = [Range.collapse false (Range.selectNodeContents 0 (host.childCount st.innerHTML))] ∧
      (restoreSelection host st).selection
          = [⟨0, host.childCount st.innerHTML, 0, host.childCount st.innerHTML⟩] ∧
      (∀ r ∈ (restoreSelection host st).selection, r.collapsed = true) ∧
      (0 < host.childCount st.innerHTML →
        (restoreSelection host st).selection
          ≠ [Range.collapse true (Range.selectNodeContents 0 (host.childCount st.innerHTML))])) ∧
    (∀ r, st.savedRange = some r → (restoreSelection host st).selection = [r]) ∧
    (restoreSelection host st).focused = true ∧
    (∀ content, (Editor.initial content).savedRange = none) ∧
    (st.selection = [] → (saveSelection st).savedRange = none) := by
  refine ⟨?_, ?_, ?_, fun _ => rfl, ?_⟩
  · intro h
    have hsel : (restoreSelection host st).selection
        = [Range.collapse false (Range.selectNodeContents 0 (host.childCount st.innerHTML))] := by
      unfold restoreSelection
      rw [h]
    refine ⟨hsel, hsel, ?_, ?_⟩
    · intro r hr
      rw [hsel, List.mem_singleton] at hr
      subst hr
      simp [Range.collapsed, Range.collapse, Range.selectNodeContents]
    · intro hpos heq
      rw [hsel] at heq
      simp [Range.collapse, Range.selectNodeContents] at heq
      omega
  · intro r h
    unfold restoreSelection
    rw [h]
  · unfold restoreSelection
    split <;> rfl
  · intro h
    unfold saveSelection
    rw [h]

theorem restoreSelection_default_witness :
    (restoreSelection appendingHost (Editor.initial "<p>a</p>")).selection = [⟨0, 1, 0, 1⟩] ∧
    (restoreSelection appendingHost
        (saveSelection { Editor.initial "<p>a</p>" with selection := [⟨3, 1, 3, 2⟩] })).selection
      = [⟨3, 1, 3, 2⟩] :=
  ⟨((restoreSelection_default appendingHost (Editor.initial "<p>a</p>")).1 rfl).2.1,
   (restoreSelection_default appendingHost
      (saveSelection { Editor.initial "<p>a</p>" with selection := [⟨3, 1, 3, 2⟩] })).2.1
      ⟨3, 1, 3, 2⟩ rfl⟩

/-- C20 (undo/redo round trip): when `0 <= historyIndex < history.length` and
`historyIndex > 0`, `undo()` followed by `redo()` restores `historyIndex` and
the history list and leaves the editor content equal to
`history[historyIndex]`; when `historyIndex < history.length - 1`, `redo()`
followed by `undo()` restores `historyIndex` and the history list (and the
content is again `history[historyIndex]`). -/
theorem undo_redo_round_trip (st : Editor) (h0 : 0 ≤ st.historyIndex)
    (hlt : st.historyIndex < (st.history.length : Int)) :
    (0 < st.historyIndex →
      (redo (undo st)).historyIndex = st.historyIndex ∧
      (redo (undo st)).history = st.history ∧
      jsIndex st.history st.historyIndex = some (redo (undo st)).innerHTML) ∧
    (st.historyIndex < (st.history.length : Int) - 1 →
      (undo (redo st)).historyIndex = st.historyIndex ∧
      (undo (redo st)).history = st.history ∧
      jsIndex st.history st.historyIndex = some (undo (redo st)).innerHTML) := by
  obtain ⟨e, he⟩ := jsIndex_of_lt st.history st.historyIndex h0 hlt
  constructor
  · intro hpos
    have hu : (undo st).historyIndex = st.historyIndex - 1 := by rw [undo_index, if_pos hpos]
    have hlt2 : (undo st).historyIndex < ((undo st).history.length : Int) - 1 := by
      rw [hu, undo_history]; omega
    refine ⟨?_, ?_, ?_⟩
    · rw [redo_index, if_pos hlt2, hu]; omega
    · rw [redo_history, undo_history]
    · rw [redo_innerHTML _ hlt2, undo_history, hu, sub_add_cancel, he]
      rfl
  · intro hlast
    have hr : (redo st).historyIndex = st.historyIndex + 1 := by rw [redo_index, if_pos hlast]
    have hpos2 : 0 < (redo st).historyIndex := by rw [hr]; omega
    refine ⟨?_, ?_, ?_⟩
    · rw [undo_index, if_pos hpos2, hr]; omega
    · rw [undo_history, redo_history]
    · rw [undo_innerHTML _ hpos2, redo_history, hr, add_sub_cancel_right, he]
      rfl

theorem undo_redo_round_trip_witness :
    (redo (undo (recordAll ["a", "b", "c"] (Editor.initial "c")))).historyIndex = 2 ∧
    (redo (undo (recordAll ["a", "b", "c"] (Editor.initial "c")))).innerHTML = "c" ∧
    (undo (redo (undo (recordAll ["a", "b", "c"] (Editor.initial "c"))))).historyIndex = 1 :=
  have h1 := (undo_redo_round_trip (recordAll ["a", "b", "c"] (Editor.initial "c"))
    (by decide) (by decide)).1 (by decide)
  have h2 := (undo_redo_round_trip (undo (recordAll ["a", "b", "c"] (Editor.initial "c")))
    (by decide) (by decide)).2 (by decide)
  ⟨h1.1.trans (by decide), Option.some.inj (h1.2.2.symm.trans (by decide)),
    h2.1.trans (by decide)⟩

/-! ### Insertion commands and the history -/

/-- Every insertion command that ends with `saveToHistory(this.editor.innerHTML)`
leaves the cursor on an entry equal to the editor content. -/
theorem saveToHistory_innerHTML_recorded (st : Editor) (hc : Consistent st) :
    jsIndex (saveToHistory st.innerHTML st).history (saveToHistory st.innerHTML st).historyIndex
      = some (saveToHistory st.innerHTML st).innerHTML := by
  rw [(saveToHistory_frame _ _).1]
  exact (saveToHistory_cursor st st.innerHTML hc).2

theorem insertCodeBlock_history (host : Host) (st : Editor) :
    (insertCodeBlock host st).history = st.history ∧
    (insertCodeBlock host st).historyIndex = st.historyIndex ∧
    (insertCodeBlock host st).innerHTML = (host.insertHTML codeBlockMarkup st.selection st.innerHTML).1 :=
  ⟨rfl, rfl, rfl⟩

set_option maxRecDepth 100000 in
/-- C16 (history on every insertion) fails for `insertCodeBlock`: in the state
with history `["<p>a</p>"]`, cursor 0 and content `<p>a</p>`, the code block is
inserted, the content changes, and the entry at the cursor is still
`<p>a</p>`; `insertTable`, `insertImageElement` and `insertQuote` in the same
state end with the entry at the cursor equal to the new content. -/
theorem insertCodeBlock_not_recorded :
    (insertCodeBlock appendingHost (recordAll ["<p>a</p>"] (Editor.initial "<p>a</p>"))).innerHTML
      = "<p>a</p>" ++ codeBlockMarkup ∧
    jsIndex
      (insertCodeBlock appendingHost (recordAll ["<p>a</p>"] (Editor.initial "<p>a</p>"))).history
      (insertCodeBlock appendingHost
        (recordAll ["<p>a</p>"] (Editor.initial "<p>a</p>"))).historyIndex
      = some "<p>a</p>" ∧
    jsIndex
      (insertCodeBlock appendingHost (recordAll ["<p>a</p>"] (Editor.initial "<p>a</p>"))).history
      (insertCodeBlock appendingHost
        (recordAll ["<p>a</p>"] (Editor.initial "<p>a</p>"))).historyIndex
      ≠ some (insertCodeBlock appendingHost
        (recordAll ["<p>a</p>"] (Editor.initial "<p>a</p>"))).innerHTML ∧
    jsIndex
      (insertTable appendingHost 1 1 (recordAll ["<p>a</p>"] (Editor.initial "<p>a</p>"))).history
      (insertTable appendingHost 1 1
        (recordAll ["<p>a</p>"] (Editor.initial "<p>a</p>"))).historyIndex
      = some (insertTable appendingHost 1 1
        (recordAll ["<p>a</p>"] (Editor.initial "<p>a</p>"))).innerHTML ∧
    jsIndex
      (insertImageElement appendingHost "http://x/a.png" "300" "" false false false
        (recordAll ["<p>a</p>"] (Editor.initial "<p>a</p>"))).history
      (insertImageElement appendingHost "http://x/a.png" "300" "" false false false
        (recordAll ["<p>a</p>"] (Editor.initial "<p>a</p>"))).historyIndex
      = some (insertImageElement appendingHost "http://x/a.png" "300" "" false false false
        (recordAll ["<p>a</p>"] (Editor.initial "<p>a</p>"))).innerHTML ∧
    jsIndex
      (insertQuote wrappingCommandHost (recordAll ["<p>a</p>"] (Editor.initial "<p>a</p>"))).history
      (insertQuote wrappingCommandHost
        (recordAll ["<p>a</p>"] (Editor.initial "<p>a</p>"))).historyIndex
      = some (insertQuote wrappingCommandHost
        (recordAll ["<p>a</p>"] (Editor.initial "<p>a</p>"))).innerHTML := by
  decide

/-! ### Video and image validation -/

set_option maxRecDepth 100000 in
/-- C13 (video rejection) fails for a `bilibili.com/video/` URL without a BV
identifier: `https://www.bilibili.com/video/av170001` is not rejected; the
paragraph `<p style="text-align: center;">undefined</p>` is inserted, the
success toast is shown and the new content is recorded in the history. -/
theorem confirmVideo_bilibili_undefined :
    videoHtml "https://www.bilibili.com/video/av170001" "560" "315" = VideoHtml.html none ∧
    (confirmVideo appendingHost "https://www.bilibili.com/video/av170001" "560" "315"
        (recordAll ["<p>a</p>"] (Editor.initial "<p>a</p>"))).commands
      = [("insertHTML", "<p style=\"text-align: center;\">undefined</p>")] ∧
    (confirmVideo appendingHost "https://www.bilibili.com/video/av170001" "560" "315"
        (recordAll ["<p>a</p>"] (Editor.initial "<p>a</p>"))).toasts
      = [⟨"视频已插入", "success"⟩] ∧
    (confirmVideo appendingHost "https://www.bilibili.com/video/av170001" "560" "315"
        (recordAll ["<p>a</p>"] (Editor.initial "<p>a</p>"))).innerHTML
      = "<p>a</p><p style=\"text-align: center;\">undefined</p>" ∧
    (confirmVideo appendingHost "https://www.bilibili.com/video/av170001" "560" "315"
        (recordAll ["<p>a</p>"] (Editor.initial "<p>a</p>"))).history
      = ["<p>a</p>", "<p>a</p><p style=\"text-align: center;\">undefined</p>"] ∧
    readPlayer "<p style=\"text-align: center;\">undefined</p>" = none := by
  decide

/-- C15, as amended (image source validation): `confirmImage` inserts an image
exactly when at least one source is usable: from the URL when it is not empty
and starts with `http`, whether or not a file is selected, and otherwise from
the selected file; when neither is usable it shows the warning and changes
nothing else. -/
theorem confirmImage_sources (host : Host) (urlInput : String) (file : Option String)
    (width height : String) (rounded shadow border : Bool) (st : Editor) :
    ((urlInput ≠ "" ∧ jsStartsWith "http".data urlInput.data = true) →
      confirmImage host urlInput file width height rounded shadow border st
        = insertImageElement host urlInput width height rounded shadow border st) ∧
    (∀ dataUrl, ¬ (urlInput ≠ "" ∧ jsStartsWith "http".data urlInput.data = true) →
      file = some dataUrl →
      confirmImage host urlInput file width height rounded shadow border st
        = insertImageElement host dataUrl width height rounded shadow border st) ∧
    (¬ (urlInput ≠ "" ∧ jsStartsWith "http".data urlInput.data = true) → file = none →
      confirmImage host urlInput file width height rounded shadow border st
        = showToast "请选择图片文件或输入有效的图片URL" "warning" st ∧
      (confirmImage host urlInput file width height rounded shadow border st).commands
        = st.commands ∧
      (confirmImage host urlInput file width height rounded shadow border st).innerHTML
        = st.innerHTML ∧
      (confirmImage host urlInput file width height rounded shadow border st).history
        = st.history) ∧
    (∀ src, (insertImageElement host src width height rounded shadow border st).commands
        = st.commands ++ [("insertHTML", imageMarkup src width height rounded shadow border)]) := by
  refine ⟨?_, ?_, ?_, ?_⟩
  · intro h
    unfold confirmImage
    rw [if_pos h]
  · intro dataUrl h hf
    unfold confirmImage
    rw [if_neg h, hf]
  · intro h hf
    have hc : confirmImage host urlInput file width height rounded shadow border st
        = showToast "请选择图片文件或输入有效的图片URL" "warning" st := by
      unfold confirmImage
      rw [if_neg h, hf]
    rw [hc]
    exact ⟨rfl, rfl, rfl, rfl⟩
  · intro src
    unfold insertImageElement
    rw [(saveToHistory_frame _ _).2.2.1]
    simp only [showToast, execInsertHTML, (restoreSelection_frame host st).2.2.2.2.1]

set_option maxRecDepth 100000 in
theorem confirmImage_sources_witness :
    (confirmImage appendingHost "" (some "data:image/png;base64,AAAA") "300" "" false false false
        (Editor.initial "")).commands
      = [("insertHTML", "<p style=\"text-align: center;\"><img src=\"data:image/png;base64,AAAA\" style=\"max-width: 100%; width: 300px; height: auto;\" class=\"\"></p>")] ∧
    (confirmImage appendingHost "ftp://x/a.png" none "300" "" false false false
        (Editor.initial "")).toasts
      = [⟨"请选择图片文件或输入有效的图片URL", "warning"⟩] :=
  have h := confirmImage_sources appendingHost "" (some "data:image/png;base64,AAAA") "300" ""
    false false false (Editor.initial "")
  have h2 := confirmImage_sources appendingHost "ftp://x/a.png" none "300" ""
    false false false (Editor.initial "")
  ⟨(congrArg Editor.commands (h.2.1 _ (by decide) rfl)).trans (by decide),
   (congrArg Editor.toasts ((h2.2.2.1 (by decide) rfl).1)).trans (by decide)⟩

set_option maxRecDepth 100000 in
/-- C15 as stated fails: with a usable URL and a selected file at once the
operation is not rejected; the image of the URL is inserted and the success
toast is shown. -/
theorem confirmImage_both_counterexample :
    ("http://x/a.png" ≠ "" ∧ jsStartsWith "http".data "http://x/a.png".data = true) ∧
    (some "data:image/png;base64,AAAA" : Option String).isSome = true ∧
    (confirmImage appendingHost "http://x/a.png" (some "data:image/png;base64,AAAA") "300" ""
        false false false (Editor.initial "")).commands
      = [("insertHTML", "<p style=\"text-align: center;\"><img src=\"http://x/a.png\" style=\"max-width: 100%; width: 300px; height: auto;\" class=\"\"></p>")] ∧
    (confirmImage appendingHost "http://x/a.png" (some "data:image/png;base64,AAAA") "300" ""
        false false false (Editor.initial "")).toasts
      = [⟨"图片已插入", "success"⟩] ∧
    (confirmImage appendingHost "http://x/a.png" (some "data:image/png;base64,AAAA") "300" ""
        false false false (Editor.initial "")).innerHTML ≠ (Editor.initial "").innerHTML := by
  decide

/-! ### The video identifier of a watch URL -/

theorem jsSplitAux_cons (sep : List Char) (acc : List Char) (c : Char) (cs : List Char) :
    jsSplitAux sep 0 acc (c :: cs)
      = if jsStartsWith sep (c :: cs) then acc.reverse :: jsSplitAux sep (sep.length - 1) [] cs
        else jsSplitAux sep 0 (c :: acc) cs := by
  rw [jsSplitAux]

/-- The first piece of a split starts with what was accumulated before. -/
theorem jsSplitAux_acc (sep : List Char) : ∀ (s acc : List Char),
    ∃ h t, jsSplitAux sep 0 [] s = h :: t ∧ jsSplitAux sep 0 acc s = (acc.reverse ++ h) :: t := by
  intro s
  induction s with
  | nil => intro acc; exact ⟨[], [], by simp [jsSplitAux], by simp [jsSplitAux]⟩
  | cons c cs ih =>
    intro acc
    rw [jsSplitAux_cons, jsSplitAux_cons]
    by_cases hp : jsStartsWith sep (c :: cs) = true
    · rw [if_pos hp, if_pos hp]
      exact ⟨[], _, rfl, by simp⟩
    · rw [if_neg hp, if_neg hp]
      obtain ⟨h1, t1, e1, e2⟩ := ih [c]
      obtain ⟨h2, t2, e3, e4⟩ := ih (c :: acc)
      rw [e1] at e3
      obtain ⟨rfl, rfl⟩ := List.cons.inj e3
      exact ⟨c :: h1, t1, by simpa using e2, by simpa using e4⟩

/-- Splitting at `&` a text that has no `&` before a tail that is empty or
starts with `&` gives that text as the first piece. -/
theorem jsSplitAux_amp (tail : List Char) (ht : tail = [] ∨ ∃ r, tail = '&' :: r) :
    ∀ (w acc : List Char), '&' ∉ w →
      (jsSplitAux ['&'] 0 acc (w ++ tail))[0]? = some (acc.reverse ++ w) := by
  intro w
  induction w with
  | nil =>
    intro acc _
    rcases ht with rfl | ⟨r, rfl⟩
    · simp [jsSplitAux]
    · rw [List.nil_append, jsSplitAux_cons]
      simp [jsStartsWith]
  | cons c w ih =>
    intro acc hw
    have hc : c ≠ '&' := fun h => hw (h ▸ List.mem_cons_self _ _)
    have hp : ¬ (jsStartsWith ['&'] (c :: (w ++ tail)) = true) := by
      simp [jsStartsWith, Ne.symm hc]
    rw [List.cons_append, jsSplitAux_cons, if_neg hp,
      ih (c :: acc) (fun h => hw (List.mem_cons_of_mem _ h))]
    simp

/-- Splitting at `v=` a text without `v=` before a tail that is empty or
starts with `&`: the first piece is that text followed by nothing or by
something that starts with `&`. -/
theorem jsSplitAux_videoId (tail : List Char) (ht : tail = [] ∨ ∃ r, tail = '&' :: r) :
    ∀ (w acc : List Char), ¬ (['v', '='] <:+: w) →
      ∃ h t, (h = [] ∨ ∃ r, h = '&' :: r) ∧
        jsSplitAux ['v', '='] 0 acc (w ++ tail) = (acc.reverse ++ w ++ h) :: t := by
  intro w
  induction w with
  | nil =>
    intro acc _
    obtain ⟨h, t, e1, e2⟩ := jsSplitAux_acc ['v', '='] tail acc
    refine ⟨h, t, ?_, by simpa using e2⟩
    rcases ht with rfl | ⟨r, rfl⟩
    · simp [jsSplitAux] at e1
      exact Or.inl e1.1
    · rw [jsSplitAux_cons, if_neg (by simp [jsStartsWith])] at e1
      obtain ⟨h1, t1, _, e4⟩ := jsSplitAux_acc ['v', '='] r ['&']
      rw [e4] at e1
      obtain ⟨rfl, rfl⟩ := List.cons.inj e1
      exact Or.inr ⟨h1, rfl⟩
  | cons c w ih =>
    intro acc hw
    have hw1 : ¬ (['v', '='] <:+: w) := fun h => hw (h.trans (List.suffix_cons c w).isInfix)
    have hp : ¬ (jsStartsWith ['v', '='] (c :: (w ++ tail)) = true) := by
      intro hpre
      cases w with
      | nil =>
        rcases ht with rfl | ⟨r, rfl⟩
        · simp [jsStartsWith] at hpre
        · simp [jsStartsWith] at hpre
      | cons d w1 =>
        simp [jsStartsWith] at hpre
        apply hw
        rw [← hpre.1, ← hpre.2]
        exact ⟨[], w1, rfl⟩
    obtain ⟨h, t, hh, e⟩ := ih (c :: acc) hw1
    refine ⟨h, t, hh, ?_⟩
    rw [List.cons_append, jsSplitAux_cons, if_neg hp, e]
    simp

/-- The identifier that line 491 extracts from a watch URL. -/
theorem youtubeVideoId_watch (id tail : String)
    (hamp : '&' ∉ id.data) (hv : ¬ (['v', '='] <:+: id.data))
    (ht : tail.data = [] ∨ ∃ r, tail.data = '&' :: r) :
    youtubeVideoId ("https://www.youtube.com/watch?v=" ++ id ++ tail) = some id := by
  unfold youtubeVideoId jsSplit
  have hstart : ∀ rest : List Char,
      jsSplitAux "v=".data 0 [] ("https://www.youtube.com/watch?v=".data ++ rest)
        = "https://www.youtube.com/watch?".data :: jsSplitAux "v=".data 0 [] rest :=
    fun _ => by rfl
  simp only [String.data_append, List.append_assoc]
  rw [hstart]
  obtain ⟨h, t, hh, e⟩ := jsSplitAux_videoId tail.data ht id.data [] hv
  have e1 : jsSplitAux "v=".data 0 [] (id.data ++ tail.data) = (id.data ++ h) :: t := by
    simpa using e
  rw [e1]
  simp only [List.getElem?_cons_succ, List.getElem?_cons_zero]
  have := jsSplitAux_amp h hh id.data [] hamp
  simp only [List.reverse_nil, List.nil_append] at this
  show Option.map String.mk (jsSplitAux "&".data 0 [] (id.data ++ h))[0]? = some id
  rw [this]
  rfl

set_option maxRecDepth 100000 in
/-- The tokens of the paragraph of line 504 around the template of line 492,
for an identifier, a width and a height without double quote or ampersand. -/
theorem tokens_youtube (videoId width height : String)
    (hid : ∀ c ∈ videoId.data, c ≠ '"' ∧ c ≠ '&')
    (hw : ∀ c ∈ width.data, c ≠ '"' ∧ c ≠ '&')
    (hh : ∀ c ∈ height.data, c ≠ '"' ∧ c ≠ '&') :
    tokens (videoParagraph (some (youtubeMarkup videoId width height))) =
      some [Token.startTag "p" [("style", "text-align: center;")],
            Token.startTag "iframe"
              [("src", "https://www.youtube.com/embed/" ++ videoId), ("width", width),
               ("height", height), ("style", "border:none; border-radius: var(--radius);"),
               ("allowfullscreen", "")],
            Token.endTag "iframe", Token.endTag "p"] := by
  have h1 : ∀ rest : List Char, (Scan.data []).run []
      ("<p style=\"text-align: center;\">".data
        ++ ("<iframe src=\"https://www.youtube.com/embed/".data ++ rest))
      = (Scan.valueDq "iframe".data.reverse [] "src".data.reverse
          "https://www.youtube.com/embed/".data.reverse).run
          [Token.startTag "p" [("style", "text-align: center;")]] rest := fun _ => by rfl
  have h2 : ∀ (v : List Char) (out : List Token) (rest : List Char),
      (Scan.valueDq "iframe".data.reverse [] "src".data.reverse v).run out
        ("\" width=\"".data ++ rest)
      = (Scan.valueDq "iframe".data.reverse (pushAttr [] "src".data.reverse v)
          "width".data.reverse []).run out rest := fun _ _ _ => by rfl
  have h3 : ∀ (attrs : List (String × String)) (v : List Char) (out : List Token)
      (rest : List Char),
      (Scan.valueDq "iframe".data.reverse attrs "width".data.reverse v).run out
        ("\" height=\"".data ++ rest)
      = (Scan.valueDq "iframe".data.reverse (pushAttr attrs "width".data.reverse v)
          "height".data.reverse []).run out rest := fun _ _ _ _ => by rfl
  have h4 : ∀ (attrs : List (String × String)) (v : List Char) (out : List Token),
      (Scan.valueDq "iframe".data.reverse attrs "height".data.reverse v).run out
        ("\" style=\"border:none; border-radius: var(--radius);\" allowfullscreen></iframe>".data
          ++ "</p>".data)
      = some ((Token.endTag "p" :: Token.endTag "iframe" ::
          mkStartTag "iframe".data.reverse
            (pushAttr
              (pushAttr (pushAttr attrs "height".data.reverse v) "style".data.reverse
                "border:none; border-radius: var(--radius);".data.reverse)
              "allowfullscreen".data.reverse []) :: out).reverse) := fun _ _ _ => by rfl
  unfold tokens videoParagraph youtubeMarkup jsToString
  simp only [String.data_append, List.append_assoc]
  rw [h1, run_valueDq _ _ _ _ _ videoId.data _ hid, h2, run_valueDq _ _ _ _ _ width.data _ hw, h3,
    run_valueDq _ _ _ _ _ height.data _ hh, h4]
  simp [mkStartTag, pushAttr, String.ext_iff]

set_option maxRecDepth 100000 in
/-- C12, as amended (watch-URL rewrite): for a URL
`https://www.youtube.com/watch?v=` followed by an identifier without `&`,
`v=` or double quote and by a tail that is empty or starts with `&`, and for
width and height values without double quote or ampersand, `confirmVideo`
hands to `insertHTML` a centred paragraph wrapping an `iframe` whose `src` is
exactly `https://www.youtube.com/embed/` followed by the identifier. -/
theorem confirmVideo_watch (host : Host) (videoId tail width height : String) (st : Editor)
    (hamp : '&' ∉ videoId.data) (hv : ¬ (['v', '='] <:+: videoId.data))
    (ht : tail.data = [] ∨ ∃ r, tail.data = '&' :: r)
    (hq : '"' ∉ videoId.data)
    (hw : ∀ c ∈ width.data, c ≠ '"' ∧ c ≠ '&')
    (hh : ∀ c ∈ height.data, c ≠ '"' ∧ c ≠ '&') :
    (confirmVideo host ("https://www.youtube.com/watch?v=" ++ videoId ++ tail) width height
        st).commands
      = st.commands
          ++ [("insertHTML", videoParagraph (some (youtubeMarkup videoId width height)))] ∧
    (readPlayer (videoParagraph (some (youtubeMarkup videoId width height)))).map
        (fun e => (e.1, e.2.lookup "src"))
      = some ("iframe", some ("https://www.youtube.com/embed/" ++ videoId)) := by
  have hid : ∀ c ∈ videoId.data, c ≠ '"' ∧ c ≠ '&' :=
    fun c hc => ⟨fun h => hq (h ▸ hc), fun h => hamp (h ▸ hc)⟩
  constructor
  · have hguard : (decide ("https://www.youtube.com/watch?v=" ++ videoId ++ tail = "")
        || !(jsStartsWith "http".data
          ("https://www.youtube.com/watch?v=" ++ videoId ++ tail).data)) = false := by
      have hs : ∀ rest : List Char,
          jsStartsWith "http".data ("https://www.youtube.com/watch?v=".data ++ rest) = true :=
        fun _ => by rfl
      have hne : "https://www.youtube.com/watch?v=" ++ videoId ++ tail ≠ "" := by
        intro h
        have := congrArg String.data h
        simp only [String.data_append, List.append_assoc] at this
        exact absurd (congrArg List.length this) (by simp)
      simp only [String.data_append, List.append_assoc, hs, hne, decide_False, Bool.not_true,
        Bool.or_self]
    have hinc : jsIncludes "youtube.com/watch?v=".data
        ("https://www.youtube.com/watch?v=" ++ videoId ++ tail).data = true := by
      have hs : ∀ rest : List Char, jsIncludes "youtube.com/watch?v=".data
          ("https://www.youtube.com/watch?v=".data ++ rest) = true := fun _ => by rfl
      simp only [String.data_append, List.append_assoc, hs]
    have hhtml : videoHtml ("https://www.youtube.com/watch?v=" ++ videoId ++ tail) width height
        = VideoHtml.html (some (youtubeMarkup videoId width height)) := by
      unfold videoHtml
      rw [if_pos hinc, youtubeVideoId_watch videoId tail hamp hv ht]
    unfold confirmVideo
    rw [hguard, hhtml]
    simp only [Bool.false_eq_true, if_false]
    rw [(saveToHistory_frame _ _).2.2.1]
    simp only [showToast, execInsertHTML, (restoreSelection_frame host st).2.2.2.2.1]
  · unfold readPlayer
    rw [tokens_youtube videoId width height hid hw hh]
    simp [List.lookup]

set_option maxRecDepth 100000 in
theorem confirmVideo_watch_witness :
    (confirmVideo appendingHost "https://www.youtube.com/watch?v=dQw4w9WgXcQ&t=42" "560" "315"
        (Editor.initial "")).commands
      = [("insertHTML", "<p style=\"text-align: center;\"><iframe src=\"https://www.youtube.com/embed/dQw4w9WgXcQ\" width=\"560\" height=\"315\" style=\"border:none; border-radius: var(--radius);\" allowfullscreen></iframe></p>")] :=
  (confirmVideo_watch appendingHost "dQw4w9WgXcQ" "&t=42" "560" "315" (Editor.initial "")
    (by decide) (by decide) (Or.inr ⟨"t=42".data, rfl⟩) (by decide) (by decide) (by decide)).1

set_option maxRecDepth 100000 in
/-- C12 as stated fails: the identifier `x" onload="y` is not empty and holds
neither `&` nor `v=`, yet the `src` of the inserted `iframe` is
`https://www.youtube.com/embed/x`, not the embed address followed by the whole
identifier. -/
theorem confirmVideo_watch_counterexample :
    '&' ∉ "x\" onload=\"y".data ∧ ¬ (['v', '='] <:+: "x\" onload=\"y".data) ∧
    (confirmVideo appendingHost "https://www.youtube.com/watch?v=x\" onload=\"y" "560" "315"
        (Editor.initial "")).commands
      = [("insertHTML", "<p style=\"text-align: center;\"><iframe src=\"https://www.youtube.com/embed/x\" onload=\"y\" width=\"560\" height=\"315\" style=\"border:none; border-radius: var(--radius);\" allowfullscreen></iframe></p>")] ∧
    (readPlayer "<p style=\"text-align: center;\"><iframe src=\"https://www.youtube.com/embed/x\" onload=\"y\" width=\"560\" height=\"315\" style=\"border:none; border-radius: var(--radius);\" allowfullscreen></iframe></p>").map
        (fun e => (e.1, e.2.lookup "src"))
      = some ("iframe", some "https://www.youtube.com/embed/x") ∧
    "https://www.youtube.com/embed/x" ≠ "https://www.youtube.com/embed/" ++ "x\" onload=\"y" := by
  decide

/-! ### Import validity -/

/-- C14 (import validity): for a `.json` file whose text does not parse, or
parses to a value without a true `title` or without a true `content`, the file
is rejected with an error toast and the live document is intact: the title,
the editor content, the document record, the history list, `historyIndex`,
the dirty flag and the stored record are unchanged. -/
theorem importFile_invalid_json (ih : ImportHost) (fileName content : String) (pg : Page)
    (hjson : jsEndsWith ".json".data fileName.data = true)
    (hbad : ih.parseJSON content = none ∨
      ∃ data, ih.parseJSON content = some data ∧
        (hasTruthyField "title" data = false ∨ hasTruthyField "content" data = false)) :
    (importFile ih fileName content pg).docTitle = pg.docTitle ∧
    (importFile ih fileName content pg).editor.innerHTML = pg.editor.innerHTML ∧
    (importFile ih fileName content pg).document = pg.document ∧
    (importFile ih fileName content pg).editor.history = pg.editor.history ∧
    (importFile ih fileName content pg).editor.historyIndex = pg.editor.historyIndex ∧
    (importFile ih fileName content pg).editor.isDirty = pg.editor.isDirty ∧
    (importFile ih fileName content pg).storage = pg.storage ∧
    ∃ message, (importFile ih fileName content pg).editor.toasts
      = pg.editor.toasts ++ [⟨message, "error"⟩] := by
  have hrej : ∃ message, importFile ih fileName content pg
      = { pg with editor := showToast message "error" pg.editor } := by
    unfold importFile
    rw [if_pos hjson]
    rcases hbad with hnone | ⟨data, hsome, hfield⟩
    · rw [hnone]
      exact ⟨_, rfl⟩
    · rw [hsome]
      unfold hasTruthyField at hfield
      dsimp only
      split
      · rename_i title body htitle hbody
        rw [htitle, hbody] at hfield
        have hcond : (truthyProp title && truthyProp body) = false := by
          rcases hfield with h | h <;> simp only [] at h <;> simp [h]
        simp only [hcond, Bool.false_eq_true, if_false]
        exact ⟨_, rfl⟩
      · exact ⟨_, rfl⟩
  obtain ⟨message, h⟩ := hrej
  rw [h]
  exact ⟨rfl, rfl, rfl, rfl, rfl, rfl, rfl, message, rfl⟩

set_option maxRecDepth 100000 in
theorem importFile_invalid_json_witness :
    (importFile sampleImportHost "doc.json" "\x7b\"title\":\"T\"\x7d" (samplePage "<p>a</p>")).docTitle
      = "Old title" ∧
    (importFile sampleImportHost "doc.json" "\x7b\"title\":\"T\"\x7d"
      (samplePage "<p>a</p>")).editor.innerHTML = "<p>a</p>" ∧
    (importFile sampleImportHost "doc.json" "\x7b\"title\":\"T\"\x7d"
      (samplePage "<p>a</p>")).storage = none ∧
    (importFile sampleImportHost "doc.json" "not json" (samplePage "<p>a</p>")).editor.history
      = ["<p>a</p>"] ∧
    (importFile sampleImportHost "doc.json" "\x7b\"title\":\"T\",\"content\":\"<p>c</p>\"\x7d"
      (samplePage "<p>a</p>")).editor.innerHTML = "<p>c</p>" :=
  have h1 := importFile_invalid_json sampleImportHost "doc.json" "\x7b\"title\":\"T\"\x7d"
    (samplePage "<p>a</p>") (by decide)
    (Or.inr ⟨.obj [("title", .str "T")], by rfl, Or.inr (by rfl)⟩)
  have h2 := importFile_invalid_json sampleImportHost "doc.json" "not json"
    (samplePage "<p>a</p>") (by decide) (Or.inl (by rfl))
  ⟨h1.1, h1.2.1, h1.2.2.2.2.2.2.1, h2.2.2.2.1, by decide⟩

/-! ### Markdown export -/

set_option maxRecDepth 1000000 in
theorem markdownRewrite_sample :
    markdownRewrite "<h2>Title</h2><p><strong>Bold</strong> text</p>"
      = "## Title\n\n**Bold** text\n\n" := by
  decide

set_option maxRecDepth 1000000 in
/-- C11, as amended (Markdown sample): for the content
`<h2>Title</h2><p><strong>Bold</strong> text</p>` the replacements of lines
783-798 give `## Title\n\n**Bold** text\n\n`, and, the text content of that
tag-free text being the text itself, the payload handed to `downloadFile` is
its trimmed form `## Title\n\n**Bold** text`, without the trailing blank
line, under the file name `title.md`. -/
theorem exportMarkdown_sample (textOf : String → String) (title : String) (st : Editor)
    (htext : textOf "## Title\n\n**Bold** text\n\n" = "## Title\n\n**Bold** text\n\n") :
    markdownRewrite "<h2>Title</h2><p><strong>Bold</strong> text</p>"
      = "## Title\n\n**Bold** text\n\n" ∧
    (exportMarkdown textOf title "<h2>Title</h2><p><strong>Bold</strong> text</p>" st).1.content
      = "## Title\n\n**Bold** text" ∧
    (exportMarkdown textOf title "<h2>Title</h2><p><strong>Bold</strong> text</p>" st).1.filename
      = title ++ ".md" := by
  refine ⟨markdownRewrite_sample, ?_, rfl⟩
  show jsTrim (textOf (markdownRewrite "<h2>Title</h2><p><strong>Bold</strong> text</p>"))
    = "## Title\n\n**Bold** text"
  rw [markdownRewrite_sample, htext]
  decide

set_option maxRecDepth 1000000 in
theorem exportMarkdown_sample_witness :
    markupText "## Title\n\n**Bold** text\n\n" = "## Title\n\n**Bold** text\n\n" ∧
    (exportMarkdown markupText "doc" "<h2>Title</h2><p><strong>Bold</strong> text</p>"
        (Editor.initial "")).1
      = ⟨"## Title\n\n**Bold** text", "doc.md", "text/markdown;charset=utf-8"⟩ :=
  have h := exportMarkdown_sample markupText "doc" (Editor.initial "") (by decide)
  ⟨by decide, by
    have e : (exportMarkdown markupText "doc" "<h2>Title</h2><p><strong>Bold</strong> text</p>"
        (Editor.initial "")).1
        = ⟨(exportMarkdown markupText "doc" "<h2>Title</h2><p><strong>Bold</strong> text</p>"
            (Editor.initial "")).1.content, "doc.md", "text/markdown;charset=utf-8"⟩ := rfl
    rw [e, h.2.1]⟩

set_option maxRecDepth 1000000 in
/-- C11 as stated fails: the payload for the sample content is
`## Title\n\n**Bold** text`; the trailing blank line of the claimed payload is
removed by the `trim()` of line 804. -/
theorem exportMarkdown_sample_counterexample :
    (exportMarkdown markupText "doc" "<h2>Title</h2><p><strong>Bold</strong> text</p>"
        (Editor.initial "")).1.content = "## Title\n\n**Bold** text" ∧
    (exportMarkdown markupText "doc" "<h2>Title</h2><p><strong>Bold</strong> text</p>"
        (Editor.initial "")).1.content ≠ "## Title\n\n**Bold** text\n\n" := by
  decide

set_option maxRecDepth 1000000 in
/-- C18 (Markdown blockquote) fails for two paragraphs: for
`<blockquote><p>a</p><p>b</p></blockquote>` the payload is the two lines `> a`
and `b`; only the first line carries the prefix, because line 793 writes `> `
once in front of the replaced paragraphs.  With one paragraph the payload is
the single line `> a`. -/
theorem exportMarkdown_blockquote_second_line :
    markdownRewrite "<blockquote><p>a</p><p>b</p></blockquote>" = "> a\nb\n\n" ∧
    markdownPayload markupText "<blockquote><p>a</p><p>b</p></blockquote>" = "> a\nb" ∧
    textLines (markdownPayload markupText "<blockquote><p>a</p><p>b</p></blockquote>")
      = ["> a", "b"] ∧
    textLines (markdownPayload markupText "<blockquote><p>a</p><p>b</p></blockquote>")
      ≠ ["> a", "> b"] ∧
    textLines (markdownPayload markupText "<blockquote><p>a</p></blockquote>") = ["> a"] ∧
    markdownPayload markupText "<ul><li>a</li><li>b</li></ul>" = "- a\n- b" := by
  decide

/-! ### Word export -/

/-- C19 (structured-document export) fails for blocks outside the `switch` of
lines 673-680: the list `<ul><li>item</li></ul>`, the heading
`<h4>t</h4>` and the code block `<pre><code>c</code></pre>` each yield a bare
run and no paragraph, a table with one cell `<p>x</p>` yields the paragraph of
the cell, and `<blockquote><p>q</p></blockquote>` yields a paragraph nested
inside a paragraph; `<p>a<strong>b</strong></p>` and `<h2>t</h2>` yield one
paragraph of runs, `<p><br></p>` an empty paragraph and `<p></p>` nothing. -/
theorem parseNodeToDocx_blocks :
    parseNodeToDocx (.element "UL" "" [.element "LI" "" [.text "item"]])
      = [.run "item" false false false false] ∧
    parseNodeToDocx (.element "H4" "" [.text "t"]) = [.run "t" false false false false] ∧
    parseNodeToDocx (.element "PRE" "" [.element "CODE" "" [.text "c"]])
      = [.run "c" false false false false] ∧
    parseNodeToDocx (.element "TABLE" "" [.element "TBODY" "" [.element "TR" ""
        [.element "TD" "" [.element "P" "" [.text "x"]]]]])
      = [.paragraph none none none [.run "x" false false false false]] ∧
    parseNodeToDocx (.element "BLOCKQUOTE" "" [.element "P" "" [.text "q"]])
      = [.paragraph none (some "IntenseQuote") none
          [.paragraph none none none [.run "q" false false false false]]] ∧
    (parseNodeToDocx (.element "BLOCKQUOTE" "" [.element "P" "" [.text "q"]])).map
        isFlatParagraph = [false] ∧
    (parseNodeToDocx (.element "UL" "" [.element "LI" "" [.text "item"]])).map
        isFlatParagraph = [false] ∧
    parseNodeToDocx (.element "P" "" [.text "a", .element "STRONG" "" [.text "b"]])
      = [.paragraph none none none
          [.run "a" false false false false, .run "b" true false false false]] ∧
    parseNodeToDocx (.element "H2" "center" [.text "t"])
      = [.paragraph (some "HEADING_2") none (some "CENTER")
          [.run "t" false false false false]] ∧
    parseNodeToDocx (.element "P" "" [.element "BR" "" []])
      = [.paragraph none none none []] ∧
    parseNodeToDocx (.element "P" "" []) = [] :=
  ⟨rfl, rfl, rfl, rfl, rfl, rfl, rfl, rfl, rfl, rfl, rfl⟩

end ProDoc
